import Mathlib

/-!
Verification development for the pdftables table-recovery core
(geometry.ts, table-detector.ts, index.ts).

The TypeScript source is shallowly embedded: JavaScript numbers are
modelled as exact rationals (`ℚ`), fallible paths as `Option`, object
identity (the `used` glyph set) as list indices, and the stable TimSort
of JavaScript engines as a stable insertion sort.  Every definition is
translated from the source file it names in its doc comment; the few
points where the model is coarser than the engine (IEEE rounding,
non-total sort comparators) are noted in place.
-/

set_option allowUnsafeReducibility true

attribute [semireducible] Rat.add Rat.mul Rat.inv Rat.sub Rat.ofScientific

namespace PdfTables

/-- JavaScript numbers, modelled as exact rationals. -/
abbrev Num := ℚ

/-! ### Generic list helpers used by the embedding -/

/-- Worker for `mapWithIdx`: maps `f` over the list, feeding it the index
starting from `n`.  Models JavaScript's `array.map((x, i) => ...)`. -/
def mapWithIdxGo (f : Nat → α → β) : Nat → List α → List β
  | _, [] => []
  | n, a :: as => f n a :: mapWithIdxGo f (n + 1) as

/-- JavaScript's `array.map((x, i) => f i x)`. -/
def mapWithIdx (f : Nat → α → β) (l : List α) : List β :=
  mapWithIdxGo f 0 l

/-- In-place update of element `i` (JavaScript `arr[i] = f(arr[i])`);
out-of-range indices leave the list unchanged. -/
def listModify (l : List α) (i : Nat) (f : α → α) : List α :=
  match l, i with
  | [], _ => []
  | a :: as, 0 => f a :: as
  | a :: as, n + 1 => a :: listModify as n f

/-- `Math.min` over a list, seeded with the first element (the empty case
never occurs at call sites and returns 0). -/
def listMin : List Num → Num
  | [] => 0
  | x :: xs => xs.foldl min x

/-- `Math.max` over a list, seeded with the first element (the empty case
never occurs at call sites and returns 0). -/
def listMax : List Num → Num
  | [] => 0
  | x :: xs => xs.foldl max x

/-- Arithmetic mean of a list of numbers (`sum / length`). -/
def mean (l : List Num) : Num :=
  l.sum / (l.length : Num)

/-- Stable insertion of `a` into a list: `a` goes before the first element
`b` with `le a b`. -/
def insertLe (le : α → α → Bool) (a : α) : List α → List α
  | [] => [a]
  | b :: bs => if le a b then a :: b :: bs else b :: insertLe le a bs

/-- Stable sort (insertion sort).  JavaScript's `Array.prototype.sort` is
stable (ES2019), so for a total preorder comparator the results agree. -/
def insertionSort (le : α → α → Bool) : List α → List α
  | [] => []
  | a :: as => insertLe le a (insertionSort le as)

/-- Numeric `≤` as a Bool, the order used by `.sort((a, b) => a - b)`. -/
def numLe (a b : Num) : Bool :=
  decide (a ≤ b)

/-- `[...xs].sort((a, b) => a - b)`: ascending stable sort of numbers. -/
def sortNum (l : List Num) : List Num :=
  insertionSort numLe l

/-- `[...xs].sort((a, b) => b - a)`: descending stable sort of numbers. -/
def sortNumDesc (l : List Num) : List Num :=
  insertionSort (fun a b => decide (b ≤ a)) l

/-! ### JavaScript string primitives -/

/-- Character-level version of JavaScript `String.prototype.trim`
(strip leading and trailing whitespace). -/
def jsTrimList (cs : List Char) : List Char :=
  ((cs.dropWhile Char.isWhitespace).reverse.dropWhile Char.isWhitespace).reverse

/-- JavaScript `value.trim()`. -/
def jsTrim (s : String) : String :=
  String.mk (jsTrimList s.data)

/-- JavaScript `value.replace(/\s+/g, "")`: drop every whitespace char. -/
def stripWs (s : String) : String :=
  String.mk (s.data.filter (fun c => !c.isWhitespace))

/-! ### Numeric parsing (index.ts: normalizeNumberString / parseNumericValue) -/

/-- Numeric value of a decimal digit character. -/
def digitVal (c : Char) : Nat :=
  c.toNat - '0'.toNat

/-- Value of a list of decimal digit characters. -/
def digitsToNat (ds : List Char) : Nat :=
  ds.foldl (fun acc c => acc * 10 + digitVal c) 0

/-- Hexadecimal digit recogniser (`[0-9a-fA-F]`). -/
def isHexDigit (c : Char) : Bool :=
  c.isDigit || ('a' ≤ c && c ≤ 'f') || ('A' ≤ c && c ≤ 'F')

/-- Value of a hexadecimal digit character. -/
def hexDigitVal (c : Char) : Nat :=
  if c.isDigit then c.toNat - 48
  else if 'a' ≤ c && c ≤ 'f' then c.toNat - 87
  else c.toNat - 55

/-- Exponent suffix of ECMAScript's decimal number grammar: either the
input is exhausted, or it is `[eE] [+-]? digits`; anything else is a
parse failure. -/
def parseExpPart (mantissa : ℚ) : List Char → Option ℚ
  | [] => some mantissa
  | e :: rest =>
    if e = 'e' ∨ e = 'E' then
      let signedRest : Bool × List Char :=
        match rest with
        | '+' :: r => (false, r)
        | '-' :: r => (true, r)
        | r => (false, r)
      let ds := signedRest.2.takeWhile Char.isDigit
      let rest3 := signedRest.2.dropWhile Char.isDigit
      if ds = [] ∨ rest3 ≠ [] then none
      else if signedRest.1 then some (mantissa / (10 : ℚ) ^ digitsToNat ds)
      else some (mantissa * (10 : ℚ) ^ digitsToNat ds)
    else none

/-- Unsigned decimal literal of ECMAScript's `Number` string grammar:
`digits [. digits] [exp]` or `. digits [exp]`; the numeric value is exact
(the engine's rounding to binary64 is not modelled). -/
def parseDecimalTail (cs : List Char) : Option ℚ :=
  let intDs := cs.takeWhile Char.isDigit
  let rest1 := cs.dropWhile Char.isDigit
  match rest1 with
  | '.' :: rest2 =>
    let fracDs := rest2.takeWhile Char.isDigit
    let rest3 := rest2.dropWhile Char.isDigit
    if intDs = [] ∧ fracDs = [] then none
    else
      parseExpPart
        ((digitsToNat intDs : ℚ) + (digitsToNat fracDs : ℚ) / (10 : ℚ) ^ fracDs.length)
        rest3
  | _ =>
    if intDs = [] then none
    else parseExpPart (digitsToNat intDs : ℚ) rest1

/-- Unsigned part of `Number(...)`: `Infinity` parses but is non-finite
(so it is reported as `none`, matching the `Number.isFinite` rejection in
`parseNumericValue`); otherwise the decimal grammar applies. -/
def parseUnsigned (cs : List Char) : Option ℚ :=
  if cs = "Infinity".data then none
  else parseDecimalTail cs

/-- Optionally signed decimal/Infinity literal. -/
def parseSigned : List Char → Option ℚ
  | '+' :: rest => parseUnsigned rest
  | '-' :: rest => (parseUnsigned rest).map Neg.neg
  | cs => parseUnsigned cs

/-- ECMAScript `Number(string)` followed by the `Number.isFinite` check:
`some q` when the string denotes a finite number (value taken exactly),
`none` for `NaN` and `±Infinity`.  Covers the whitespace trim, the empty
string (→ 0), hex/octal/binary literals (signless), and signed decimal
literals with optional exponent. -/
def jsNumberQ (s : String) : Option ℚ :=
  match jsTrimList s.data with
  | [] => some 0
  | '0' :: x :: rest =>
    if x = 'x' ∨ x = 'X' then
      if rest ≠ [] ∧ rest.all isHexDigit then
        some ((rest.foldl (fun acc c => acc * 16 + hexDigitVal c) 0 : Nat) : ℚ)
      else none
    else if x = 'o' ∨ x = 'O' then
      if rest ≠ [] ∧ rest.all (fun c => '0' ≤ c && c ≤ '7') then
        some ((rest.foldl (fun acc c => acc * 8 + digitVal c) 0 : Nat) : ℚ)
      else none
    else if x = 'b' ∨ x = 'B' then
      if rest ≠ [] ∧ rest.all (fun c => c = '0' ∨ c = '1') then
        some ((rest.foldl (fun acc c => acc * 2 + digitVal c) 0 : Nat) : ℚ)
      else none
    else parseSigned ('0' :: x :: rest)
  | cs => parseSigned cs

/-- Lookahead of the thousands-grouping regex
`(?=\d{3}(tsep|sep|$))`: three digits followed by the thousands mark, the
decimal separator string, or the end of input. -/
def thousandsLookahead (tsep : Char) (sep : List Char) (cs : List Char) : Bool :=
  match cs with
  | d1 :: d2 :: d3 :: rest =>
    d1.isDigit && d2.isDigit && d3.isDigit &&
      (rest = [] || rest.headD ' ' = tsep || sep.isPrefixOf rest)
  | _ => false

/-- Global replace of the pattern `tsep(?=\d{3}(tsep|sep|$))` with the
empty string: drops thousands-grouping marks.  The lookahead does not
consume input, so scanning resumes right after the deleted character,
exactly as the JavaScript global regex does. -/
def stripThousands (tsep : Char) (sep : List Char) : List Char → List Char
  | [] => []
  | c :: rest =>
    if c = tsep ∧ thousandsLookahead tsep sep rest then stripThousands tsep sep rest
    else c :: stripThousands tsep sep rest

/-- Fuel-indexed worker for `replaceStr` (the fuel is the input length,
so it never runs out; structural recursion keeps the definition
kernel-reducible). -/
def replaceStrGo (pat rep : List Char) : Nat → List Char → List Char
  | _, [] => []
  | 0, cs => cs
  | fuel + 1, c :: rest =>
    if pat ≠ [] ∧ pat.isPrefixOf (c :: rest) then
      rep ++ replaceStrGo pat rep fuel ((c :: rest).drop pat.length)
    else c :: replaceStrGo pat rep fuel rest

/-- Global literal substring replacement (`normalized.replace(new RegExp(escapedSeparator, "g"), ".")`
with the separator regex-escaped, hence a literal match).  An empty
pattern leaves the input unchanged (unreachable: the separator is
non-empty in the branch that calls this). -/
def replaceStr (pat rep cs : List Char) : List Char :=
  replaceStrGo pat rep cs.length cs

/-- index.ts `normalizeNumberString`: strip whitespace; when the decimal
separator is not `"."`, drop the other punctuation mark used as
thousands grouping (with the 3-digit lookahead) and turn the separator
into `"."`; when it is `"."`, drop grouping commas.  The declared
`string | null` return type is never `null` in the source, so the model
returns `String`. -/
def normalizeNumberString (value : String) (decimalSeparator : String) : String :=
  let separator := if decimalSeparator = "" then "." else decimalSeparator
  let noWs := (stripWs value).data
  if separator ≠ "." then
    let tsep : Char := if separator = "," then '.' else ','
    let stripped := stripThousands tsep separator.data noWs
    String.mk (replaceStr separator.data ['.'] stripped)
  else
    String.mk (stripThousands ',' ['.'] noWs)

/-- index.ts `parseNumericValue`: blank input is `null`; otherwise
normalize and parse, rejecting non-finite or unparsable results. -/
def parseNumericValue (value : String) (decimalSeparator : String) : Option Num :=
  if jsTrim value = "" then none
  else jsNumberQ (normalizeNumberString value decimalSeparator)

/-! ### Position clustering (geometry.ts: clusterPositions) -/

/-- Loop body of geometry.ts `clusterPositions`: walk the sorted tail,
keeping the current band's anchor (`currentBandStart`) and members, and
flushing a band's arithmetic mean whenever a position falls more than
`tolerance` from the anchor. -/
def clusterAux (tolerance : Num) : List Num → Num → List Num → List Num → List Num
  | [], _, currentBandValues, bands => bands ++ [mean currentBandValues]
  | v :: rest, currentBandStart, currentBandValues, bands =>
    if |v - currentBandStart| ≤ tolerance then
      clusterAux tolerance rest currentBandStart (currentBandValues ++ [v]) bands
    else
      clusterAux tolerance rest v [v] (bands ++ [mean currentBandValues])

/-- geometry.ts `clusterPositions`: sort ascending, then band greedily by
distance to the band's first (anchor) member, returning band means. -/
def clusterPositions (positions : List Num) (tolerance : Num) : List Num :=
  match sortNum positions with
  | [] => []
  | s :: rest => clusterAux tolerance rest s [s] []

/-- Anchor-membership predicate of the clustering scan. -/
def nearAnchor (tolerance anchor v : Num) : Bool :=
  decide (|v - anchor| ≤ tolerance)

/-- Modelled from the spec (reference algorithm of §4.1, for comparison
with the source's `clusterPositions`): on the sorted positions, each band
is a maximal run anchored at its first unclustered member, a position
joining the current band exactly when its absolute distance to that
anchor is at most the tolerance. -/
def clusterSpecGo (tolerance : Num) : List Num → List (List Num)
  | [] => []
  | a :: rest =>
    (a :: rest.takeWhile (nearAnchor tolerance a)) ::
      clusterSpecGo tolerance (rest.dropWhile (nearAnchor tolerance a))
  termination_by l => l.length
  decreasing_by
    simp only [List.length_cons]
    exact Nat.lt_succ_of_le (List.Sublist.length_le (List.dropWhile_sublist _))

/-- Modelled from the spec (§4.1): band centers are the arithmetic means
of the greedy anchor-based bands of the sorted input. -/
def clusterPositionsSpec (positions : List Num) (tolerance : Num) : List Num :=
  (clusterSpecGo tolerance (sortNum positions)).map mean

/-! ### Sorting and mean lemmas -/

theorem mem_insertLe {le : α → α → Bool} {x a : α} :
    ∀ {l : List α}, a ∈ insertLe le x l ↔ a = x ∨ a ∈ l := by
  intro l
  induction l with
  | nil => simp [insertLe]
  | cons b bs ih =>
    by_cases h : le x b = true
    · simp [insertLe, h]
    · simp only [insertLe, if_neg h, List.mem_cons, ih]
      tauto

theorem insertLe_perm (le : α → α → Bool) (x : α) :
    ∀ l : List α, (insertLe le x l).Perm (x :: l) := by
  intro l
  induction l with
  | nil => simp [insertLe]
  | cons b bs ih =>
    by_cases h : le x b = true
    · simp [insertLe, h]
    · simp only [insertLe, if_neg h]
      exact (ih.cons b).trans (List.Perm.swap x b bs)

theorem insertionSort_perm (le : α → α → Bool) :
    ∀ l : List α, (insertionSort le l).Perm l := by
  intro l
  induction l with
  | nil => simp [insertionSort]
  | cons a as ih =>
    exact (insertLe_perm le a (insertionSort le as)).trans (ih.cons a)

theorem sortNum_perm (l : List Num) : (sortNum l).Perm l :=
  insertionSort_perm numLe l

theorem pairwise_insertLe {x : Num} {l : List Num}
    (h : l.Pairwise (· ≤ ·)) : (insertLe numLe x l).Pairwise (· ≤ ·) := by
  induction l with
  | nil => simp [insertLe]
  | cons b bs ih =>
    rcases List.pairwise_cons.mp h with ⟨hb, hbs⟩
    by_cases hle : numLe x b = true
    · have hxb : x ≤ b := of_decide_eq_true hle
      simp only [insertLe, if_pos hle]
      refine List.pairwise_cons.mpr ⟨?_, h⟩
      intro c hc
      rcases List.mem_cons.mp hc with rfl | hc
      · exact hxb
      · exact le_trans hxb (hb c hc)
    · have hbx : b ≤ x := le_of_not_le (fun hxb => hle (decide_eq_true hxb))
      simp only [insertLe, if_neg hle]
      refine List.pairwise_cons.mpr ⟨?_, ih hbs⟩
      intro c hc
      rcases mem_insertLe.mp hc with rfl | hc
      · exact hbx
      · exact hb c hc

theorem sortNum_pairwise (l : List Num) : (sortNum l).Pairwise (· ≤ ·) := by
  induction l with
  | nil => exact List.Pairwise.nil
  | cons a as ih => exact pairwise_insertLe ih

theorem mean_singleton (v : Num) : mean [v] = v := by
  simp [mean]

theorem sum_le_length_mul : ∀ {l : List Num} {c : Num},
    (∀ v ∈ l, v ≤ c) → l.sum ≤ (l.length : Num) * c := by
  intro l
  induction l with
  | nil => intro c _; simp
  | cons a as ih =>
    intro c h
    have ha : a ≤ c := h a (List.mem_cons_self a as)
    have has : as.sum ≤ (as.length : Num) * c :=
      ih (fun v hv => h v (List.mem_cons_of_mem a hv))
    simp only [List.sum_cons, List.length_cons, Nat.cast_succ]
    calc a + as.sum ≤ c + (as.length : Num) * c := add_le_add ha has
      _ = ((as.length : Num) + 1) * c := by ring

theorem length_mul_le_sum : ∀ {l : List Num} {c : Num},
    (∀ v ∈ l, c ≤ v) → (l.length : Num) * c ≤ l.sum := by
  intro l
  induction l with
  | nil => intro c _; simp
  | cons a as ih =>
    intro c h
    have ha : c ≤ a := h a (List.mem_cons_self a as)
    have has : (as.length : Num) * c ≤ as.sum :=
      ih (fun v hv => h v (List.mem_cons_of_mem a hv))
    simp only [List.sum_cons, List.length_cons, Nat.cast_succ]
    calc ((as.length : Num) + 1) * c = c + (as.length : Num) * c := by ring
      _ ≤ a + as.sum := add_le_add ha has

theorem mean_le_of_forall_le {l : List Num} {c : Num}
    (hne : l ≠ []) (h : ∀ v ∈ l, v ≤ c) : mean l ≤ c := by
  have hlen : 0 < (l.length : Num) := by
    have := List.length_pos.mpr hne
    exact_mod_cast this
  rw [mean, div_le_iff₀ hlen]
  have := sum_le_length_mul h
  linarith

theorem le_mean_of_forall_le {l : List Num} {c : Num}
    (hne : l ≠ []) (h : ∀ v ∈ l, c ≤ v) : c ≤ mean l := by
  have hlen : 0 < (l.length : Num) := by
    have := List.length_pos.mpr hne
    exact_mod_cast this
  rw [mean, le_div_iff₀ hlen]
  have := length_mul_le_sum h
  linarith

theorem dropWhile_head_false {p : α → Bool} :
    ∀ {l : List α} {x : α} {xs : List α}, l.dropWhile p = x :: xs → p x = false := by
  intro l
  induction l with
  | nil => intro x xs h; simp [List.dropWhile] at h
  | cons a as ih =>
    intro x xs h
    by_cases hp : p a = true
    · rw [List.dropWhile_cons, if_pos hp] at h
      exact ih h
    · rw [List.dropWhile_cons, if_neg hp] at h
      cases h
      exact Bool.eq_false_iff.mpr hp

theorem clusterSpecGo_nil (tol : Num) : clusterSpecGo tol [] = [] := by
  rw [clusterSpecGo]

theorem clusterSpecGo_cons (tol a : Num) (rest : List Num) :
    clusterSpecGo tol (a :: rest) =
      (a :: rest.takeWhile (nearAnchor tol a)) ::
        clusterSpecGo tol (rest.dropWhile (nearAnchor tol a)) := by
  rw [clusterSpecGo]

theorem clusterAux_eq (tol : Num) :
    ∀ (rest : List Num) (start : Num) (vals bands : List Num),
      clusterAux tol rest start vals bands =
        bands ++ mean (vals ++ rest.takeWhile (nearAnchor tol start)) ::
          (clusterSpecGo tol (rest.dropWhile (nearAnchor tol start))).map mean := by
  intro rest
  induction rest with
  | nil =>
    intro start vals bands
    simp [clusterAux, clusterSpecGo_nil]
  | cons v rest ih =>
    intro start vals bands
    by_cases hv : |v - start| ≤ tol
    · have hv' : nearAnchor tol start v = true := decide_eq_true hv
      rw [clusterAux, if_pos hv, ih, List.takeWhile_cons, List.dropWhile_cons]
      simp [hv', List.append_assoc]
    · have hv' : nearAnchor tol start v = false := decide_eq_false hv
      rw [clusterAux, if_neg hv, ih, List.takeWhile_cons, List.dropWhile_cons]
      simp only [hv', Bool.false_eq_true, if_false, List.append_nil]
      rw [clusterSpecGo_cons]
      simp [List.append_assoc]

theorem clusterPositions_eq_spec (positions : List Num) (tolerance : Num) :
    clusterPositions positions tolerance = clusterPositionsSpec positions tolerance := by
  unfold clusterPositions clusterPositionsSpec
  cases hs : sortNum positions with
  | nil => simp [clusterSpecGo_nil]
  | cons s rest =>
    show clusterAux tolerance rest s [s] [] =
      (clusterSpecGo tolerance (s :: rest)).map mean
    rw [clusterAux_eq, clusterSpecGo_cons]
    simp

theorem clusterSpecGo_bands (tol : Num) :
    ∀ (n : Nat) (l : List Num), l.length ≤ n →
      ∀ b ∈ clusterSpecGo tol l, b ≠ [] ∧ ∀ v ∈ b, v ∈ l := by
  intro n
  induction n with
  | zero =>
    intro l hl
    have : l = [] := List.length_eq_zero.mp (Nat.le_zero.mp hl)
    subst this
    simp [clusterSpecGo_nil]
  | succ n ih =>
    intro l hl b hb
    cases l with
    | nil => simp [clusterSpecGo_nil] at hb
    | cons a rest =>
      rw [clusterSpecGo_cons] at hb
      rcases List.mem_cons.mp hb with rfl | hb
      · refine ⟨by simp, ?_⟩
        intro v hv
        rcases List.mem_cons.mp hv with rfl | hv
        · exact List.mem_cons_self _ _
        · exact List.mem_cons_of_mem _ ((List.takeWhile_sublist _).subset hv)
      · have hlen : (rest.dropWhile (nearAnchor tol a)).length ≤ n := by
          have := (List.dropWhile_sublist (l := rest) (p := nearAnchor tol a)).length_le
          simp only [List.length_cons] at hl
          omega
        rcases ih _ hlen b hb with ⟨hne, hmem⟩
        refine ⟨hne, fun v hv => ?_⟩
        exact List.mem_cons_of_mem _ ((List.dropWhile_sublist _).subset (hmem v hv))

theorem clusterSpecGo_chain (tol : Num) (htol : 0 ≤ tol) :
    ∀ (n : Nat) (l : List Num), l.length ≤ n → l.Pairwise (· ≤ ·) →
      ((clusterSpecGo tol l).map mean).Chain' (· < ·) := by
  intro n
  induction n with
  | zero =>
    intro l hl _
    have : l = [] := List.length_eq_zero.mp (Nat.le_zero.mp hl)
    subst this
    simp [clusterSpecGo_nil]
  | succ n ih =>
    intro l hl hpw
    cases l with
    | nil => simp [clusterSpecGo_nil]
    | cons a rest =>
      rcases List.pairwise_cons.mp hpw with ⟨ha, hrest⟩
      rw [clusterSpecGo_cons, List.map_cons]
      have hlen : (rest.dropWhile (nearAnchor tol a)).length ≤ n := by
        have := (List.dropWhile_sublist (l := rest) (p := nearAnchor tol a)).length_le
        simp only [List.length_cons] at hl
        omega
      have hpw' : (rest.dropWhile (nearAnchor tol a)).Pairwise (· ≤ ·) :=
        List.Pairwise.sublist (List.dropWhile_sublist _) hrest
      refine List.chain'_cons'.mpr ⟨?_, ih _ hlen hpw'⟩
      intro m hm
      have hm' : m ∈ (clusterSpecGo tol (rest.dropWhile (nearAnchor tol a))).map mean :=
        List.mem_of_mem_head? hm
      rcases List.mem_map.mp hm' with ⟨b, hb, rfl⟩
      rcases clusterSpecGo_bands tol _ _ le_rfl b hb with ⟨hbne, hbmem⟩
      -- the current band's mean is at most `a + tol`
      have hband : mean (a :: rest.takeWhile (nearAnchor tol a)) ≤ a + tol := by
        refine mean_le_of_forall_le (by simp) ?_
        intro v hv
        rcases List.mem_cons.mp hv with rfl | hv
        · linarith
        · have := List.mem_takeWhile_imp hv
          have habs : |v - a| ≤ tol := of_decide_eq_true this
          linarith [(abs_le.mp habs).2]
      -- the remainder is nonempty since `b` is a band of it
      cases hdrop : rest.dropWhile (nearAnchor tol a) with
      | nil =>
        rw [hdrop] at hb
        simp [clusterSpecGo_nil] at hb
      | cons h t =>
        have hfail : nearAnchor tol a h = false := dropWhile_head_false hdrop
        have hmemh : h ∈ rest := (List.dropWhile_sublist _).subset (hdrop ▸ List.mem_cons_self h t)
        have hah : a ≤ h := ha h hmemh
        have hfar : tol < |h - a| := not_le.mp (of_decide_eq_false hfail)
        have hstep : a + tol < h := by
          rw [abs_of_nonneg (by linarith)] at hfar
          linarith
        have hmean : h ≤ mean b := by
          refine le_mean_of_forall_le hbne ?_
          intro v hv
          have hv' : v ∈ rest.dropWhile (nearAnchor tol a) := hdrop ▸ hbmem v hv
          rw [hdrop] at hv'
          rw [hdrop] at hpw'
          rcases List.mem_cons.mp hv' with rfl | hv'
          · exact le_refl v
          · exact (List.pairwise_cons.mp hpw').1 v hv'
        calc mean (a :: rest.takeWhile (nearAnchor tol a)) ≤ a + tol := hband
          _ < h := hstep
          _ ≤ mean b := hmean

theorem clusterSpecGo_far (tol : Num) :
    ∀ (n : Nat) (l : List Num), l.length ≤ n → l.Pairwise (· ≤ ·) →
      l.Pairwise (fun a b => tol < |a - b|) →
      clusterSpecGo tol l = l.map (fun v => [v]) := by
  intro n
  induction n with
  | zero =>
    intro l hl _ _
    have : l = [] := List.length_eq_zero.mp (Nat.le_zero.mp hl)
    subst this
    simp [clusterSpecGo_nil]
  | succ n ih =>
    intro l hl hle hfar
    cases l with
    | nil => simp [clusterSpecGo_nil]
    | cons a rest =>
      rcases List.pairwise_cons.mp hle with ⟨hale, hrle⟩
      rcases List.pairwise_cons.mp hfar with ⟨hafar, hrfar⟩
      rw [clusterSpecGo_cons]
      have htw : rest.takeWhile (nearAnchor tol a) = [] := by
        cases rest with
        | nil => simp
        | cons h t =>
          rw [List.takeWhile_cons]
          have : nearAnchor tol a h = false := by
            have h1 : tol < |a - h| := hafar h (List.mem_cons_self h t)
            have h2 : tol < |h - a| := by rwa [abs_sub_comm] at h1
            exact decide_eq_false (not_le.mpr h2)
          simp [this]
      have hdw : rest.dropWhile (nearAnchor tol a) = rest := by
        cases rest with
        | nil => simp
        | cons h t =>
          rw [List.dropWhile_cons]
          have : nearAnchor tol a h = false := by
            have h1 : tol < |a - h| := hafar h (List.mem_cons_self h t)
            have h2 : tol < |h - a| := by rwa [abs_sub_comm] at h1
            exact decide_eq_false (not_le.mpr h2)
          simp [this]
      rw [htw, hdw, List.map_cons]
      have hlen : rest.length ≤ n := by
        simp only [List.length_cons] at hl
        omega
      rw [ih rest hlen hrle hrfar]

theorem map_mean_singletons (l : List Num) :
    (l.map (fun v => [v])).map mean = l := by
  induction l with
  | nil => simp
  | cons a as ih => simp [mean_singleton, ih]

/-! ### Claim C6 -/

/-- C6: for every position list and tolerance ≥ 0, `clusterPositions`
equals the reference greedy algorithm (sort ascending, anchor each band
at its first unclustered member, membership decided against the band's
anchor — not a running mean — with distance ≤ tolerance, centers the
arithmetic means of the bands); the returned centers are strictly
ascending; and for positions pairwise farther apart than the tolerance
it returns one band per position, values in ascending order (exactly the
ascending sort of the input, each singleton band's mean being the
position itself). -/
theorem c6_clustering_matches_reference (positions : List Num) (tolerance : Num)
    (htol : 0 ≤ tolerance) :
    clusterPositions positions tolerance = clusterPositionsSpec positions tolerance ∧
    (clusterPositions positions tolerance).Chain' (· < ·) ∧
    (positions.Pairwise (fun a b => tolerance < |a - b|) →
      clusterPositions positions tolerance = sortNum positions) := by
  refine ⟨clusterPositions_eq_spec positions tolerance, ?_, ?_⟩
  · rw [clusterPositions_eq_spec]
    unfold clusterPositionsSpec
    exact clusterSpecGo_chain tolerance htol _ _ le_rfl (sortNum_pairwise positions)
  · intro hfar
    have hfar' : (sortNum positions).Pairwise (fun a b => tolerance < |a - b|) :=
      ((sortNum_perm positions).pairwise_iff
        (fun {a b} hab => by rwa [abs_sub_comm])).mpr hfar
    rw [clusterPositions_eq_spec]
    unfold clusterPositionsSpec
    rw [clusterSpecGo_far tolerance _ _ le_rfl (sortNum_pairwise positions) hfar',
      map_mean_singletons]

/-- Witness for C6 at the concrete input `[5, 0, 10]` with tolerance 2. -/
theorem c6_clustering_matches_reference_witness :
    (0 : Num) ≤ 2 ∧
    (clusterPositions [5, 0, 10] 2 = clusterPositionsSpec [5, 0, 10] 2 ∧
     (clusterPositions [5, 0, 10] 2).Chain' (· < ·) ∧
     (([5, 0, 10] : List Num).Pairwise (fun a b => 2 < |a - b|) →
       clusterPositions [5, 0, 10] 2 = sortNum [5, 0, 10])) :=
  ⟨by norm_num, c6_clustering_matches_reference [5, 0, 10] 2 (by norm_num)⟩

/-! ### Claim C5 -/

/-- C5: numeric parsing under a decimal separator S strips whitespace,
strips the other punctuation mark as thousands grouping and converts S
to `.` when S ≠ `.` (comma grouping of exactly three digits when
S = `.`), and yields `null` for blank, unparsable, or non-finite input.
Concretely: `parseNumericValue "1.234,56" "," = 1234.56`,
`parseNumericValue "1,234.56" "." = 1234.56`, an unparsable string gives
`null`, and the empty string gives `null` under every separator. -/
theorem c5_parse_numeric (S : String) :
    parseNumericValue "1.234,56" "," = some (123456 / 100 : Num) ∧
    parseNumericValue "1,234.56" "." = some (123456 / 100 : Num) ∧
    parseNumericValue " 1 234,5 " "," = some (12345 / 10 : Num) ∧
    parseNumericValue "abc" "." = none ∧
    parseNumericValue "" S = none := by
  refine ⟨by decide, by decide, by decide, by decide, ?_⟩
  rfl

/-! ### Data model (types.ts) -/

/-- types.ts `Rect`: axis-aligned box in page coordinates, y up. -/
structure Rect where
  x : Num
  y : Num
  width : Num
  height : Num
  deriving Repr, DecidableEq

/-- types.ts `Glyph`: a positioned text fragment. -/
structure Glyph where
  text : String
  bbox : Rect
  deriving Repr, DecidableEq

/-- types.ts `TableCell`; `bbox` is `none` exactly for empty cells. -/
structure TableCell where
  rowIndex : Nat
  columnIndex : Nat
  text : String
  bbox : Option Rect
  deriving Repr, DecidableEq

/-- types.ts `TableRow`. -/
structure TableRow where
  rowIndex : Nat
  cells : List TableCell
  deriving Repr, DecidableEq

/-- types.ts `ParsedTable`. -/
structure ParsedTable where
  pageIndex : Nat
  bbox : Rect
  rows : List TableRow
  deriving Repr, DecidableEq

/-- types.ts `TableExtractionOptions`; absent fields are `none` and the
getters apply the source defaults (`?? 3`, `?? 2`, `?? 15`, `?? Infinity`
— the unbounded whitespace default is modelled by `none`). -/
structure TableExtractionOptions where
  xTolerance : Option Num := none
  yTolerance : Option Num := none
  decimalSeparator : Option String := none
  columnHeaders : Option (List String) := none
  endOfTableWhitespace : Option Num := none
  minColumnCount : Option Nat := none
  maxColumnCount : Option Nat := none
  deriving Repr, DecidableEq

/-- Placeholder cell: models the JavaScript `undefined` produced by an
out-of-range `cells[col]` access (unreachable on the rectangular rows the
pipeline builds). -/
def defaultCell : TableCell :=
  { rowIndex := 0, columnIndex := 0, text := "", bbox := none }

/-- Placeholder glyph for out-of-range list reads (unreachable). -/
def dummyGlyph : Glyph :=
  { text := "", bbox := ⟨0, 0, 0, 0⟩ }

/-- Horizontal center `bbox.x + bbox.width / 2` of a glyph. -/
def cxOf (g : Glyph) : Num :=
  g.bbox.x + g.bbox.width / 2

/-- Vertical center `bbox.y + bbox.height / 2` of a glyph. -/
def cyOf (g : Glyph) : Num :=
  g.bbox.y + g.bbox.height / 2

/-! ### table-detector.ts helpers -/

/-- Worker for `findNearestIndex`: `none` as best distance models the
initial `Number.POSITIVE_INFINITY`. -/
def findNearestGo (value : Num) : List Num → Nat → Nat → Option Num → Nat
  | [], _, bestIdx, _ => bestIdx
  | c :: rest, i, bestIdx, bestDist =>
    let d := |value - c|
    match bestDist with
    | none => findNearestGo value rest (i + 1) i (some d)
    | some bd =>
      if d < bd then findNearestGo value rest (i + 1) i (some d)
      else findNearestGo value rest (i + 1) bestIdx (some bd)

/-- table-detector.ts `findNearestIndex`: nearest center by absolute
distance, first index winning ties; 0 on an empty list. -/
def findNearestIndex (value : Num) (centers : List Num) : Nat :=
  findNearestGo value centers 0 0 none

/-- table-detector.ts `bboxFromGlyphs` (callers always pass a non-empty
list; the empty case would be `Math.min()` = Infinity in JS). -/
def bboxFromGlyphs (glyphs : List Glyph) : Rect :=
  let xMin := listMin (glyphs.map (fun g => g.bbox.x))
  let xMax := listMax (glyphs.map (fun g => g.bbox.x + g.bbox.width))
  let yMin := listMin (glyphs.map (fun g => g.bbox.y))
  let yMax := listMax (glyphs.map (fun g => g.bbox.y + g.bbox.height))
  ⟨xMin, yMin, xMax - xMin, yMax - yMin⟩

/-- geometry.ts `inferRows`: cluster vertical centers, then sort the
bands descending (top row first, y increasing upward). -/
def inferRows (glyphs : List Glyph) (yTolerance : Num) : List Num :=
  sortNumDesc (clusterPositions (glyphs.map cyOf) yTolerance)

/-- Assignment step of the 1-D k-means in `reclusterCenters1D`: cluster
`i` receives, in order, the values whose nearest mean (strict `<`, first
index wins ties — the same scan as `findNearestIndex`) is `i`. -/
def kmeansAssign (means sorted : List Num) : List (List Num) :=
  (List.range means.length).map (fun i => sorted.filter (fun v => findNearestIndex v means == i))

/-- Mean-recomputation step: a cluster keeps its old mean when empty. -/
def kmeansStep (sorted means : List Num) : List Num :=
  (means.zip (kmeansAssign means sorted)).map (fun p => if p.2 = [] then p.1 else mean p.2)

/-- `newMeans.reduce((max, m, i) => Math.max(max, Math.abs(m - means[i])), 0)`. -/
def maxAbsDiff (newMeans means : List Num) : Num :=
  (newMeans.zip means).foldl (fun acc p => max acc |p.1 - p.2|) 0

/-- The (up to 30) Lloyd iterations of `reclusterCenters1D`, stopping
early when the largest mean shift drops below 0.1. -/
def kmeansIter (sorted : List Num) : Nat → List Num → List Num
  | 0, means => means
  | fuel + 1, means =>
    let newMeans := kmeansStep sorted means
    let delta := maxAbsDiff newMeans means
    if delta < 1 / 10 then newMeans else kmeansIter sorted fuel newMeans

/-- table-detector.ts `reclusterCenters1D`: 1-D k-means over the sorted
values, seeded at quantile positions `Math.floor(((i + 0.5) * n) / k)`.
For `k = 0` with a non-empty value list the JavaScript code throws
(`clusters[0].push` on `undefined`); the total model returns `[]` there
and `reclusterCenters1DChecked` reports the throw. -/
def reclusterCenters1D (values : List Num) (k : Nat) : List Num :=
  if values.length = 0 then []
  else if values.length ≤ k then sortNum values
  else if k = 0 then []
  else
    let sorted := sortNum values
    let means0 := (List.range k).map (fun i =>
      sorted.getD (min (((2 * i + 1) * sorted.length) / (2 * k)) (sorted.length - 1)) 0)
    sortNum (kmeansIter sorted 30 means0)

/-- Exception-aware version of `reclusterCenters1D`: `none` exactly when
the JavaScript code would throw a TypeError. -/
def reclusterCenters1DChecked (values : List Num) (k : Nat) : Option (List Num) :=
  if values.length = 0 then some []
  else if values.length ≤ k then some (sortNum values)
  else if k = 0 then none
  else some (reclusterCenters1D values k)

/-- Column index assigned to a glyph by nearest-center lookup. -/
def glyphColIndex (columnCenters : List Num) (g : Glyph) : Nat :=
  findNearestIndex (cxOf g) columnCenters

/-- Row index assigned to a glyph by nearest-center lookup. -/
def glyphRowIndex (rowCenters : List Num) (g : Glyph) : Nat :=
  findNearestIndex (cyOf g) rowCenters

/-- table-detector.ts `scoreColumnModel`; `none` models the
`Number.POSITIVE_INFINITY` returned for an empty layout or glyph list.
`Math.floor(totalGlyphs * 0.01)` is modelled as exact `⌊n/100⌋`. -/
def scoreColumnModel (glyphs : List Glyph) (rowCenters columnCenters : List Num) : Option Num :=
  if columnCenters.length = 0 then none
  else if glyphs.length = 0 then none
  else
    let totalGlyphs := glyphs.length
    let colCount := fun i => (glyphs.filter (fun g => glyphColIndex columnCenters g == i)).length
    let colSq := fun i =>
      ((glyphs.filter (fun g => glyphColIndex columnCenters g == i)).map
        (fun g => (cxOf g - columnCenters.getD i 0) * (cxOf g - columnCenters.getD i 0))).sum
    let totalSquared := ((List.range columnCenters.length).map colSq).sum
    let compactness := totalSquared / (totalGlyphs : Num)
    let minPerCol := max 2 (totalGlyphs / 100)
    let emptyCols :=
      ((List.range columnCenters.length).filter (fun i => colCount i < minPerCol)).length
    let usedCount := fun r =>
      ((List.range columnCenters.length).filter
        (fun c => glyphs.any (fun g =>
          glyphRowIndex rowCenters g == r && glyphColIndex columnCenters g == c))).length
    let rowVariance : Num :=
      if rowCenters.length = 0 then 0
      else
        let usedCounts := (List.range rowCenters.length).map usedCount
        let meanUsed := ((usedCounts.map (fun n => (n : Num))).sum) / (max usedCounts.length 1 : Nat)
        ((usedCounts.map (fun n => ((n : Num) - meanUsed) * ((n : Num) - meanUsed))).sum) /
          (max usedCounts.length 1 : Nat)
    some (1 * compactness + 5 * (emptyCols : Num) + (1 / 2) * rowVariance +
      (1 / 10) * (columnCenters.length : Num))

/-- Comparison `score < bestScore` with `none` as positive infinity. -/
def scoreLtOpt : Option Num → Option Num → Bool
  | none, _ => false
  | some _, none => true
  | some x, some y => decide (x < y)

/-- Model-selection loop of `inferColumnsSmart` over candidate K values,
keeping the first strictly better score. -/
def inferColumnsSmartLoop (glyphs : List Glyph) (rowCenters candidates : List Num) :
    List Nat → List Num × Option Num → List Num × Option Num
  | [], best => best
  | k :: ks, best =>
    let centersK := reclusterCenters1D candidates k
    let score := scoreColumnModel glyphs rowCenters centersK
    if scoreLtOpt score best.2 then
      inferColumnsSmartLoop glyphs rowCenters candidates ks (centersK, score)
    else
      inferColumnsSmartLoop glyphs rowCenters candidates ks best

/-- table-detector.ts `inferColumnsSmart`: pre-cluster the horizontal
centers, bound K to `[min(minCols, maxK), min(maxCols, #candidates)]`,
and keep the K with the best score (first wins ties). -/
def inferColumnsSmart (glyphs : List Glyph) (rowCenters : List Num) (xTolerance : Num)
    (minCols maxCols : Nat) : List Num :=
  if glyphs.length = 0 then []
  else
    let candidateCenters := clusterPositions (glyphs.map cxOf) xTolerance
    if candidateCenters.length = 0 then []
    else
      let maxK := min maxCols candidateCenters.length
      let minK := min minCols maxK
      if maxK = 0 then []
      else if minK = maxK then reclusterCenters1D candidateCenters maxK
      else
        (inferColumnsSmartLoop glyphs rowCenters candidateCenters
          (List.range' minK (maxK + 1 - minK)) ([], none)).1

/-- Exception-aware `inferColumnsSmartLoop`. -/
def inferColumnsSmartLoopChecked (glyphs : List Glyph) (rowCenters candidates : List Num) :
    List Nat → List Num × Option Num → Option (List Num × Option Num)
  | [], best => some best
  | k :: ks, best =>
    match reclusterCenters1DChecked candidates k with
    | none => none
    | some centersK =>
      let score := scoreColumnModel glyphs rowCenters centersK
      if scoreLtOpt score best.2 then
        inferColumnsSmartLoopChecked glyphs rowCenters candidates ks (centersK, score)
      else
        inferColumnsSmartLoopChecked glyphs rowCenters candidates ks best

/-- Exception-aware `inferColumnsSmart`: `none` exactly when a
`reclusterCenters1D` call inside it would throw. -/
def inferColumnsSmartChecked (glyphs : List Glyph) (rowCenters : List Num) (xTolerance : Num)
    (minCols maxCols : Nat) : Option (List Num) :=
  if glyphs.length = 0 then some []
  else
    let candidateCenters := clusterPositions (glyphs.map cxOf) xTolerance
    if candidateCenters.length = 0 then some []
    else
      let maxK := min maxCols candidateCenters.length
      let minK := min minCols maxK
      if maxK = 0 then some []
      else if minK = maxK then reclusterCenters1DChecked candidateCenters maxK
      else
        (inferColumnsSmartLoopChecked glyphs rowCenters candidateCenters
          (List.range' minK (maxK + 1 - minK)) ([], none)).map Prod.fst

/-- Glyphs collected in bucket `(r, c)` of step 4 of
`extractTableFromGlyphs`: those whose nearest row band is `r` and nearest
column band is `c`, in input order (the JS bounds check always passes for
non-empty center lists). -/
def bucketGlyphs (glyphs : List Glyph) (rowCenters columnCenters : List Num) (r c : Nat) :
    List Glyph :=
  glyphs.filter (fun g =>
    glyphRowIndex rowCenters g == r && glyphColIndex columnCenters g == c)

/-- Number of rows in which column `c` has at least one glyph. -/
def colUsage (glyphs : List Glyph) (rowCenters columnCenters : List Num) (c : Nat) : Nat :=
  ((List.range rowCenters.length).filter
    (fun r => !(bucketGlyphs glyphs rowCenters columnCenters r c).isEmpty)).length

/-- table-detector.ts `getFrequentlyUsedColumnIndices`: keep columns used
in at least 50% as many rows as the most used one; `null` when that
filters away nothing or everything. -/
def getFrequentlyUsedColumnIndices (glyphs : List Glyph) (rowCenters columnCenters : List Num) :
    Option (List Nat) :=
  if rowCenters.length = 0 then none
  else if columnCenters.length = 0 then none
  else
    let usage := (List.range columnCenters.length).map (colUsage glyphs rowCenters columnCenters)
    let maxUsage := usage.foldl max 0
    if maxUsage = 0 then none
    else
      let kept := (List.range columnCenters.length).filter
        (fun c => decide ((maxUsage : Num) / 2 ≤ ((usage.getD c 0 : Nat) : Num)))
      if kept.length = 0 ∨ kept.length = columnCenters.length then none
      else some kept

/-- table-detector.ts `getLogicalColumnIndices`: template-row fallback
(the row with the most non-empty cells, `indexOf` picking the first). -/
def getLogicalColumnIndices (glyphs : List Glyph) (rowCenters columnCenters : List Num) :
    Option (List Nat) :=
  if rowCenters.length = 0 then none
  else
    let nonEmptyCount := fun r =>
      ((List.range columnCenters.length).filter
        (fun c => !(bucketGlyphs glyphs rowCenters columnCenters r c).isEmpty)).length
    let counts := (List.range rowCenters.length).map nonEmptyCount
    let maxNonEmpty := counts.foldl max 0
    if maxNonEmpty = 0 then none
    else
      let templateRowIndex := (counts.findIdx? (fun n => n == maxNonEmpty)).getD 0
      let logicalCols := (List.range columnCenters.length).filter
        (fun c => !(bucketGlyphs glyphs rowCenters columnCenters templateRowIndex c).isEmpty)
      if logicalCols.length = 0 ∨ logicalCols.length = columnCenters.length then none
      else some logicalCols

/-- Stable sort of a cell's glyphs by `bbox.x` (`sort((a, b) => a.bbox.x - b.bbox.x)`). -/
def sortGlyphsByX (glyphs : List Glyph) : List Glyph :=
  insertionSort (fun a b => decide (a.bbox.x ≤ b.bbox.x)) glyphs

/-- Cell text: concatenation of the bucket's glyph texts sorted by x. -/
def cellText (glyphs : List Glyph) : String :=
  String.join ((sortGlyphsByX glyphs).map (fun g => g.text))

/-- Step 5 of `extractTableFromGlyphs`: frequent columns first, then the
template-row fallback, then all columns. -/
def chooseColumnIndices (glyphs : List Glyph) (rowCenters columnCenters : List Num) : List Nat :=
  match getFrequentlyUsedColumnIndices glyphs rowCenters columnCenters with
  | some l => l
  | none =>
    match getLogicalColumnIndices glyphs rowCenters columnCenters with
    | some l => l
    | none => List.range columnCenters.length

/-- Step 6 of `extractTableFromGlyphs`: build `TableRow`s over the kept
column indices, preserving empty cells (`text = ""`, `bbox = null`). -/
def buildRows (glyphs : List Glyph) (rowCenters columnCenters : List Num)
    (colIndicesToUse : List Nat) : List TableRow :=
  (List.range rowCenters.length).map (fun r =>
    { rowIndex := r,
      cells := mapWithIdx (fun logicalIdx colIdx =>
        let bucket := bucketGlyphs glyphs rowCenters columnCenters r colIdx
        if bucket.isEmpty then
          { rowIndex := r, columnIndex := logicalIdx, text := "", bbox := none }
        else
          { rowIndex := r, columnIndex := logicalIdx, text := cellText bucket,
            bbox := some (bboxFromGlyphs bucket) }) colIndicesToUse })

/-- A row with at least one cell of non-blank text. -/
def rowHasContent (row : TableRow) : Bool :=
  row.cells.any (fun c => jsTrim c.text ≠ "")

/-- table-detector.ts `trimLeadingEmptyRows`: drop leading all-blank rows
and renumber what remains. -/
def trimLeadingEmptyRows (rows : List TableRow) : List TableRow :=
  mapWithIdx (fun idx row =>
    { rowIndex := idx,
      cells := mapWithIdx (fun colIdx cell =>
        { cell with rowIndex := idx, columnIndex := colIdx }) row.cells })
    (rows.dropWhile (fun r => !rowHasContent r))

/-- Body of the regex `^-?\d{1,4}(?:[.,]\d+)?$` of `isNumericish`. -/
def matchNumericish (cs : List Char) : Bool :=
  let body :=
    match cs with
    | '-' :: rest => rest
    | _ => cs
  let ds := body.takeWhile Char.isDigit
  let rest := body.dropWhile Char.isDigit
  decide (1 ≤ ds.length) && decide (ds.length ≤ 4) &&
    (match rest with
     | [] => true
     | c :: ds2 => (c = '.' || c = ',') && !ds2.isEmpty && ds2.all Char.isDigit)

/-- table-detector.ts `isNumericish`: trim, collapse whitespace away,
then match `^-?\d{1,4}(?:[.,]\d+)?$`. -/
def isNumericish (value : String) : Bool :=
  let trimmed := jsTrim value
  if trimmed = "" then false
  else matchNumericish (stripWs trimmed).data

/-- table-detector.ts `isDateLike`: the pattern `^\d{4}-\d{2}$`. -/
def isDateLike (value : String) : Bool :=
  match (jsTrim value).data with
  | [a, b, c, d, e, f, g'] =>
    a.isDigit && b.isDigit && c.isDigit && d.isDigit && e = '-' && f.isDigit && g'.isDigit
  | _ => false

/-- table-detector.ts `isLikelyDataRow`: at least
`max(2, ceil(0.5 · #non-empty))` of the non-empty cells look numeric or
date-like. -/
def isLikelyDataRow (row : TableRow) : Bool :=
  let values := (row.cells.map (fun c => jsTrim c.text)).filter (fun t => t ≠ "")
  if values.isEmpty then false
  else
    let numericish := (values.filter (fun v => isNumericish v || isDateLike v)).length
    let threshold := max 2 ((values.length + 1) / 2)
    decide (threshold ≤ numericish)

/-- Number of leading rows that do not look like data rows. -/
def countHeaderRowsAux : List TableRow → Nat
  | [] => 0
  | r :: rest => if isLikelyDataRow r then 0 else countHeaderRowsAux rest + 1

/-- table-detector.ts `countHeaderRows`: leading non-data rows, clamped
to `[1, #rows]` (0 for an empty table). -/
def countHeaderRows (rows : List TableRow) : Nat :=
  if rows.length = 0 then 0
  else max 1 (min (countHeaderRowsAux rows) rows.length)

/-- JavaScript `array.join(" ")`. -/
def joinWithSpace : List String → String
  | [] => ""
  | [s] => s
  | s :: rest => s ++ " " ++ joinWithSpace rest

/-- The combined header text of a column: the non-blank trimmed header
cells joined by single spaces, trimmed
(`headerTexts.join(" ").trim()` over `headerRows`). -/
def combinedHeaderOf (headerRows : List TableRow) (col : Nat) : String :=
  jsTrim (joinWithSpace
    ((headerRows.map (fun r => jsTrim (r.cells.getD col defaultCell).text)).filter
      (fun t => t ≠ "")))

/-- Per-column body of `selectHeaderColumns`: drop all-empty columns;
otherwise keep when the combined header text (non-empty header-row cells
joined by spaces) is non-empty, or for column 0 with an empty combined
header whose body cells are all non-empty. -/
def keepColumn (rows headerRows : List TableRow) (col : Nat) : Bool :=
  let columnCells := rows.map (fun r => r.cells.getD col defaultCell)
  let combinedHeader := combinedHeaderOf headerRows col
  let allEmpty := columnCells.all (fun c => jsTrim c.text = "")
  if allEmpty then false
  else
    let bodyCells := columnCells.drop headerRows.length
    combinedHeader ≠ "" ||
      (col == 0 && combinedHeader == "" && !bodyCells.isEmpty &&
        bodyCells.all (fun c => jsTrim c.text ≠ ""))

/-- table-detector.ts `selectHeaderColumns`: the header block is the
first `max(1, headerRowCount)` rows; kept column indices ascending. -/
def selectHeaderColumns (rows : List TableRow) (headerRowCount : Nat) : List Nat :=
  if rows.length = 0 then []
  else
    let headerRows := rows.take (max 1 headerRowCount)
    let numCols := (rows.headD { rowIndex := 0, cells := [] }).cells.length
    (List.range numCols).filter (keepColumn rows headerRows)

/-- table-detector.ts `remapRowsWithColumns`: project each row onto the
kept columns and renumber both indices contiguously. -/
def remapRowsWithColumns (rows : List TableRow) (columnIndices : List Nat) : List TableRow :=
  mapWithIdx (fun rowIdx row =>
    { rowIndex := rowIdx,
      cells := mapWithIdx (fun newColIdx colIdx =>
        { row.cells.getD colIdx defaultCell with
            rowIndex := rowIdx, columnIndex := newColIdx }) columnIndices }) rows

/-! ### The automatic extraction path (table-detector.ts
`extractTableFromGlyphs` after the header-guided attempt) -/

/-- Stage 1: row bands of the automatic path. -/
def autoRowCenters (glyphs : List Glyph) (options : TableExtractionOptions) : List Num :=
  inferRows glyphs (options.yTolerance.getD 3)

/-- Stage 2: column bands of the automatic path. -/
def autoColumnCenters (glyphs : List Glyph) (options : TableExtractionOptions) : List Num :=
  inferColumnsSmart glyphs (autoRowCenters glyphs options) (options.xTolerance.getD 3)
    (options.minColumnCount.getD 2) (options.maxColumnCount.getD 15)

/-- Stages 3-6: the rows built over the chosen column indices. -/
def autoRawRows (glyphs : List Glyph) (options : TableExtractionOptions) : List TableRow :=
  buildRows glyphs (autoRowCenters glyphs options) (autoColumnCenters glyphs options)
    (chooseColumnIndices glyphs (autoRowCenters glyphs options) (autoColumnCenters glyphs options))

/-- Rows after trimming the leading empty ones. -/
def autoTrimmedRows (glyphs : List Glyph) (options : TableExtractionOptions) : List TableRow :=
  trimLeadingEmptyRows (autoRawRows glyphs options)

/-- Columns surviving the header filter. -/
def autoKeptColumns (glyphs : List Glyph) (options : TableExtractionOptions) : List Nat :=
  selectHeaderColumns (autoTrimmedRows glyphs options)
    (countHeaderRows (autoTrimmedRows glyphs options))

/-- The automatic path of `extractTableFromGlyphs` (everything after the
header-guided attempt), with its four soft-miss `null` returns. -/
def extractTableAuto (pageIndex : Nat) (glyphs : List Glyph)
    (options : TableExtractionOptions) : Option ParsedTable :=
  if (autoRowCenters glyphs options).length = 0 then none
  else if (autoColumnCenters glyphs options).length = 0 then none
  else if (autoTrimmedRows glyphs options).length = 0 then none
  else if (autoKeptColumns glyphs options).length = 0 then none
  else
    some
      { pageIndex := pageIndex, bbox := bboxFromGlyphs glyphs,
        rows := remapRowsWithColumns (autoTrimmedRows glyphs options)
          (autoKeptColumns glyphs options) }

/-! ### Header-guided extraction (table-detector.ts extractTableWithHeaders) -/

/-- A resolved header label: collapsed title text and the union of its
matched parts' boxes. -/
structure HeaderCell where
  title : String
  bbox : Rect
  deriving Repr, DecidableEq

/-- A column band tracked during the body scan (`{title, start, end}` in
the source; `end` is a Lean keyword, hence `colStart`/`colEnd`). -/
structure ColBand where
  title : String
  colStart : Num
  colEnd : Num
  deriving Repr, DecidableEq

/-- A body-scan bucket: its glyphs and its (seeded) bounding box. -/
structure Bucket where
  glyphs : List Glyph
  bbox : Rect
  deriving Repr, DecidableEq

/-- Mutable state of the body scan: rows of buckets, the adaptive column
bands, and the running `lastRowBottom`. -/
structure ScanState where
  rowsBuckets : List (List Bucket)
  columns : List ColBand
  lastRowBottom : Num
  deriving Repr, DecidableEq

/-- table-detector.ts `unionRects`. -/
def unionRects (a b : Rect) : Rect :=
  let xMin := min a.x b.x
  let yMin := min a.y b.y
  let xMax := max (a.x + a.width) (b.x + b.width)
  let yMax := max (a.y + a.height) (b.y + b.height)
  ⟨xMin, yMin, xMax - xMin, yMax - yMin⟩

/-- The non-whitespace fragments (`glyphs.filter(g => g.text.trim() !== "")`). -/
def nonSpace (glyphs : List Glyph) : List Glyph :=
  glyphs.filter (fun g => jsTrim g.text ≠ "")

/-- Split a character list at separator characters (single-character
version of `String.prototype.split`). -/
def splitChars (p : Char → Bool) : List Char → List (List Char)
  | [] => [[]]
  | c :: rest =>
    match splitChars p rest with
    | [] => [[]]
    | cur :: done => if p c then [] :: cur :: done else (c :: cur) :: done

/-- `raw.split(/\n+/).map(p => p.trim()).filter(Boolean)`.  Splitting on
single newlines instead of runs only adds empty parts, which the
trim-and-filter removes, so the two are equal. -/
def splitHeaderParts (raw : String) : List String :=
  ((splitChars (fun c => c = '\n') raw.data).map (fun cs => jsTrim (String.mk cs))).filter
    (fun s => s ≠ "")

/-- Fuel-indexed worker of `collapseWs` (fuel = input length, never
exhausted; keeps the recursion structural). -/
def collapseWsGo : Nat → List Char → List Char
  | _, [] => []
  | 0, cs => cs
  | fuel + 1, c :: rest =>
    if c.isWhitespace then ' ' :: collapseWsGo fuel (rest.dropWhile Char.isWhitespace)
    else c :: collapseWsGo fuel rest

/-- `raw.replace(/\s+/g, " ").trim()`: collapse whitespace runs to single
spaces, then trim. -/
def collapseWs (s : String) : String :=
  jsTrim (String.mk (collapseWsGo s.data.length s.data))

/-- `sortedGlyphs.find(g => !used.has(g) && g.text.trim() === part)`:
first unused glyph (scan in load order) whose trimmed text equals the
part.  Object identity of the JS `Set<Glyph>` is modelled by list
indices. -/
def findGlyphIdx (glyphs : List Glyph) (used : List Nat) (part : String) : Option Nat :=
  (List.range glyphs.length).find? (fun i =>
    !(used.contains i) && jsTrim (glyphs.getD i dummyGlyph).text == part)

/-- Match one label's parts in order, accumulating used glyph indices and
the union box; `none` when a part has no match (the whole header-guided
attempt then gives up). -/
def matchParts (glyphs : List Glyph) : List String → List Nat → Option Rect →
    Option (List Nat × Option Rect)
  | [], used, acc => some (used, acc)
  | part :: rest, used, acc =>
    match findGlyphIdx glyphs used part with
    | none => none
    | some i =>
      let g := glyphs.getD i dummyGlyph
      matchParts glyphs rest (used ++ [i])
        (some (match acc with
               | none => g.bbox
               | some r => unionRects r g.bbox))

/-- The header-matching loop of `extractTableWithHeaders`: one
`HeaderCell` per label with non-empty parts; labels with no parts are
skipped; a missing part aborts with `none`.  The final used-index list is
returned alongside for specification purposes (the source keeps it in a
local `Set`). -/
def matchHeadersAux (glyphs : List Glyph) : List String → List Nat →
    Option (List HeaderCell × List Nat)
  | [], used => some ([], used)
  | raw :: rest, used =>
    let parts := splitHeaderParts raw
    if parts.isEmpty then matchHeadersAux glyphs rest used
    else
      match matchParts glyphs parts used none with
      | none => none
      | some (used', acc) =>
        match acc with
        | none => matchHeadersAux glyphs rest used'
        | some bbox =>
          match matchHeadersAux glyphs rest used' with
          | none => none
          | some (cells, usedF) =>
            some ({ title := collapseWs raw, bbox := bbox } :: cells, usedF)

/-- `headerCells.sort((a, b) => a.bbox.x - b.bbox.x)` (stable). -/
def sortHeaderCellsByX (cells : List HeaderCell) : List HeaderCell :=
  insertionSort (fun a b => decide (a.bbox.x ≤ b.bbox.x)) cells

/-- The body-scan ordering comparator: higher vertical center first when
centers differ by more than 0.001, else left to right.  The JS comparator
is not transitive on centers within 0.001 of each other; the stable
insertion sort models the engine's stable sort and agrees with it
whenever the centers are pairwise separated by more than 0.001. -/
def bodySortLe (a b : Glyph) : Bool :=
  if 1 / 1000 < |cyOf b - cyOf a| then decide (cyOf b < cyOf a)
  else decide (a.bbox.x ≤ b.bbox.x)

/-- Sort body glyphs top-to-bottom then left-to-right. -/
def sortBodyGlyphs (glyphs : List Glyph) : List Glyph :=
  insertionSort bodySortLe glyphs

/-- `Math.max(...headerCells.map(h => h.bbox.y + h.bbox.height))` — the
value the source names `headerBottom` (numerically the highest header
top edge, y increasing upward). -/
def headerBottomOf (cells : List HeaderCell) : Num :=
  listMax (cells.map (fun h => h.bbox.y + h.bbox.height))

/-- The body-scan glyph list: non-whitespace glyphs whose top edge is at
most `headerBottom + 0.1`, in scan order.  The glyphs matched as headers
are not excluded. -/
def bodyGlyphsOf (glyphs : List Glyph) (cells : List HeaderCell) : List Glyph :=
  sortBodyGlyphs ((nonSpace glyphs).filter
    (fun g => decide (g.bbox.y + g.bbox.height ≤ headerBottomOf cells + 1 / 10)))

/-- Initial column bands `[anchorLeft, anchorRight]` from the sorted
header cells. -/
def initialColumns (cells : List HeaderCell) : List ColBand :=
  cells.map (fun c => { title := c.title, colStart := c.bbox.x, colEnd := c.bbox.x + c.bbox.width })

/-- Horizontal overlaps of a glyph with every column band, keeping only
the strictly positive ones with their column indices. -/
def overlapsOf (columns : List ColBand) (g : Glyph) : List (Nat × Num) :=
  (mapWithIdx (fun idx col =>
    (idx, min col.colEnd (g.bbox.x + g.bbox.width) - max col.colStart g.bbox.x)) columns).filter
    (fun p => decide (0 < p.2))

/-- `gap > endOfTableWhitespace` with `none` as the unbounded default
(`?? Infinity`): never exceeded. -/
def gapExceeds : Option Num → Num → Bool
  | none, _ => false
  | some w, gap => decide (w < gap)

/-- Result of one body-scan step: continue with a new state, or stop
(the JS `break`, which leaves the state as it was). -/
inductive StepResult where
  | cont (st : ScanState) : StepResult
  | stop : StepResult
  deriving Repr, DecidableEq

/-- Put a glyph into bucket `(rowIdx, colIdx)`, widen that column's band
to the glyph's horizontal extent, and lower `lastRowBottom`. -/
def assignGlyph (st : ScanState) (rowIdx colIdx : Nat) (glyph : Glyph) : ScanState :=
  { rowsBuckets := listModify st.rowsBuckets rowIdx (fun row =>
      listModify row colIdx (fun b =>
        { glyphs := b.glyphs ++ [glyph], bbox := unionRects b.bbox glyph.bbox })),
    columns := listModify st.columns colIdx (fun col =>
      { col with colStart := min col.colStart glyph.bbox.x,
                 colEnd := max col.colEnd (glyph.bbox.x + glyph.bbox.width) }),
    lastRowBottom := min st.lastRowBottom glyph.bbox.y }

/-- One iteration of the body-scan loop of `extractTableWithHeaders`:
discard zero-overlap glyphs, stop on multi-column overlap, start a new
row when the center drops more than `yTolerance` below the previous
row's first bucket's `bbox.y` (stopping instead when the gap from that
edge to the glyph's top exceeds `endOfTableWhitespace`), then assign. -/
def scanStep (yTolerance : Num) (endWhitespace : Option Num) (st : ScanState)
    (glyph : Glyph) : StepResult :=
  let overlaps := overlapsOf st.columns glyph
  if overlaps.length = 0 then .cont st
  else if 1 < overlaps.length then .stop
  else
    let colIdx := (overlaps.headD (0, 0)).1
    let cy := cyOf glyph
    let prevRow := (st.rowsBuckets.getLast?).bind (fun row => (row.head?).map (fun b => b.bbox))
    let isNewRow :=
      st.rowsBuckets.isEmpty ||
        (match prevRow with
         | some r => decide (cy < r.y - yTolerance)
         | none => false)
    if isNewRow then
      let gap :=
        match prevRow with
        | some r => r.y - (glyph.bbox.y + glyph.bbox.height)
        | none => 0
      if prevRow.isSome && gapExceeds endWhitespace gap then .stop
      else
        let st' := { st with rowsBuckets := st.rowsBuckets ++
          [st.columns.map (fun _ => ({ glyphs := [], bbox := glyph.bbox } : Bucket))] }
        .cont (assignGlyph st' (st'.rowsBuckets.length - 1) colIdx glyph)
    else
      .cont (assignGlyph st (st.rowsBuckets.length - 1) colIdx glyph)

/-- The body-scan loop; `stop` abandons the remaining glyphs. -/
def bodyScan (yTolerance : Num) (endWhitespace : Option Num) :
    List Glyph → ScanState → ScanState
  | [], st => st
  | g :: rest, st =>
    match scanStep yTolerance endWhitespace st g with
    | .stop => st
    | .cont st' => bodyScan yTolerance endWhitespace rest st'

/-- Rows assembled from the final scan state: one cell per column band,
empty buckets giving `text = ""`, `bbox = null`, non-empty ones the
x-sorted concatenation and the bucket's (seeded) box. -/
def guidedRows (final : ScanState) : List TableRow :=
  mapWithIdx (fun rowIdx rowBuckets =>
    { rowIndex := rowIdx,
      cells := mapWithIdx (fun colIdx _ =>
        let bucket := rowBuckets.getD colIdx { glyphs := [], bbox := ⟨0, 0, 0, 0⟩ }
        if bucket.glyphs.isEmpty then
          { rowIndex := rowIdx, columnIndex := colIdx, text := "", bbox := none }
        else
          { rowIndex := rowIdx, columnIndex := colIdx, text := cellText bucket.glyphs,
            bbox := some bucket.bbox }) final.columns }) final.rowsBuckets

/-- `headerCells.reduce((acc, h) => unionRects(acc, h.bbox), headerCells[0].bbox)`. -/
def headersUnion (cells : List HeaderCell) : Rect :=
  (cells.map (fun h => h.bbox)).foldl unionRects (cells.headD ⟨"", ⟨0, 0, 0, 0⟩⟩).bbox

/-- table-detector.ts `extractTableWithHeaders`. -/
def extractTableWithHeaders (pageIndex : Nat) (glyphs : List Glyph)
    (options : TableExtractionOptions) : Option ParsedTable :=
  let nonSpaceGlyphs := nonSpace glyphs
  if nonSpaceGlyphs.length = 0 then none
  else
    let headers := options.columnHeaders.getD []
    if headers.length = 0 then none
    else
      match matchHeadersAux nonSpaceGlyphs headers [] with
      | none => none
      | some (headerCells, _) =>
        if headerCells.length = 0 then none
        else
          let sortedCells := sortHeaderCellsByX headerCells
          let headerBottom := headerBottomOf sortedCells
          let final := bodyScan (options.yTolerance.getD 3) options.endOfTableWhitespace
            (bodyGlyphsOf glyphs sortedCells)
            { rowsBuckets := [], columns := initialColumns sortedCells,
              lastRowBottom := headerBottom }
          if final.rowsBuckets.length = 0 then none
          else
            some { pageIndex := pageIndex,
                   bbox := unionRects (headersUnion sortedCells)
                     { x := 0, y := final.lastRowBottom, width := 0,
                       height := headerBottom - final.lastRowBottom },
                   rows := guidedRows final }

/-- table-detector.ts `extractTableFromGlyphs`: prefer the header-guided
path when non-empty `columnHeaders` are configured, fall back to the
automatic path. -/
def extractTableFromGlyphs (pageIndex : Nat) (glyphs : List Glyph)
    (options : TableExtractionOptions) : Option ParsedTable :=
  if glyphs.length = 0 then none
  else
    let guided :=
      if (options.columnHeaders.getD []).length ≠ 0 then
        extractTableWithHeaders pageIndex glyphs options
      else none
    match guided with
    | some t => some t
    | none => extractTableAuto pageIndex glyphs options

/-- Exception-aware automatic path: `none` exactly when the
`reclusterCenters1D` call inside `inferColumnsSmart` would throw (the
remaining stages are total). -/
def extractTableAutoChecked (pageIndex : Nat) (glyphs : List Glyph)
    (options : TableExtractionOptions) : Option (Option ParsedTable) :=
  if (autoRowCenters glyphs options).length = 0 then some none
  else
    match inferColumnsSmartChecked glyphs (autoRowCenters glyphs options)
      (options.xTolerance.getD 3) (options.minColumnCount.getD 2)
      (options.maxColumnCount.getD 15) with
    | none => none
    | some _ => some (extractTableAuto pageIndex glyphs options)

/-- Exception-aware `extractTableFromGlyphs` (the header-guided path has
no throwing operation). -/
def extractTableFromGlyphsChecked (pageIndex : Nat) (glyphs : List Glyph)
    (options : TableExtractionOptions) : Option (Option ParsedTable) :=
  if glyphs.length = 0 then some none
  else
    let guided :=
      if (options.columnHeaders.getD []).length ≠ 0 then
        extractTableWithHeaders pageIndex glyphs options
      else none
    match guided with
    | some t => some (some t)
    | none => extractTableAutoChecked pageIndex glyphs options

/-! ### Cross-page merging (index.ts) -/

/-- index.ts `normalizeTableRows`: renumber row and column indices to
match positions, keeping everything else. -/
def normalizeTableRows (table : ParsedTable) : ParsedTable :=
  { table with rows := mapWithIdx (fun rowIdx row =>
      { rowIndex := rowIdx,
        cells := mapWithIdx (fun colIdx cell =>
          { cell with rowIndex := rowIdx, columnIndex := colIdx }) row.cells }) table.rows }

/-- `table.rows[0]?.cells.length ?? 0`. -/
def tableColCount (t : ParsedTable) : Nat :=
  ((t.rows.head?).map (fun r => r.cells.length)).getD 0

/-- index.ts `canMergeTables`: equal non-zero first-row cell counts. -/
def canMergeTables (prev next : ParsedTable) : Bool :=
  let prevCols := tableColCount prev
  let nextCols := tableColCount next
  if prevCols = 0 ∨ nextCols = 0 then false else prevCols == nextCols

/-- index.ts `getHeaderTexts`: trimmed texts of the first row. -/
def getHeaderTexts (table : ParsedTable) : List String :=
  match table.rows.head? with
  | none => []
  | some r => r.cells.map (fun c => jsTrim c.text)

/-- index.ts `headersEqual`: same length and element-wise equal. -/
def headersEqual (a b : List String) : Bool :=
  if a.length ≠ b.length then false
  else (a.zip b).all (fun p => p.1 == p.2)

/-- index.ts `shouldDropRepeatedHeader`: both header rows have some
non-blank text (`some(Boolean)`) and the trimmed texts agree. -/
def shouldDropRepeatedHeader (prev next : ParsedTable) : Bool :=
  let prevHeader := getHeaderTexts prev
  let nextHeader := getHeaderTexts next
  prevHeader.any (fun s => s ≠ "") && nextHeader.any (fun s => s ≠ "") &&
    headersEqual prevHeader nextHeader

/-- The `last.rows.push(...remappedRows)` of `mergeSequentialTables`:
append the incoming rows renumbered from the running row count; pageIndex
and bbox stay those of the running table. -/
def appendRows (last : ParsedTable) (rowsToAppend : List TableRow) : ParsedTable :=
  let offset := last.rows.length
  let remappedRows := mapWithIdx (fun idx row =>
    { rowIndex := offset + idx,
      cells := mapWithIdx (fun colIdx cell =>
        { cell with rowIndex := offset + idx, columnIndex := colIdx }) row.cells })
    rowsToAppend
  { last with rows := last.rows ++ remappedRows }

/-- Loop body of `mergeSequentialTables` (the in-place mutation of the
last merged table becomes replacing the last list element). -/
def mergeStep (merged : List ParsedTable) (table : ParsedTable) : List ParsedTable :=
  let normalized := normalizeTableRows table
  match merged.getLast? with
  | some last =>
    if canMergeTables last normalized then
      let rowsToAppend :=
        if shouldDropRepeatedHeader last normalized then normalized.rows.drop 1
        else normalized.rows
      merged.dropLast ++ [appendRows last rowsToAppend]
    else merged ++ [normalized]
  | none => merged ++ [normalized]

/-- index.ts `mergeSequentialTables`. -/
def mergeSequentialTables (tables : List ParsedTable) : List ParsedTable :=
  if tables.length = 0 then [] else tables.foldl mergeStep []

/-! ### Claim C2: the grid-inference scenario -/

/-- The five fragments of the C2 scenario. -/
def c2glyphs : List Glyph := [
  ⟨"Name", ⟨0, 10, 4, 10⟩⟩,
  ⟨"Age", ⟨10, 10, 3, 10⟩⟩,
  ⟨"City", ⟨20, 10, 4, 10⟩⟩,
  ⟨"John", ⟨0, 0, 4, 10⟩⟩,
  ⟨"5", ⟨10, 0, 1, 10⟩⟩]

/-- The options of the C2 scenario: both tolerances 2, everything else
at its default. -/
def c2options : TableExtractionOptions :=
  { xTolerance := some 2, yTolerance := some 2 }

/-- The table the detector produces on the C2 scenario. -/
def c2expected : ParsedTable :=
  { pageIndex := 0,
    bbox := ⟨0, 0, 24, 20⟩,
    rows := [
      { rowIndex := 0, cells := [
          ⟨0, 0, "Name", some ⟨0, 10, 4, 10⟩⟩,
          ⟨0, 1, "Age", some ⟨10, 10, 3, 10⟩⟩,
          ⟨0, 2, "City", some ⟨20, 10, 4, 10⟩⟩] },
      { rowIndex := 1, cells := [
          ⟨1, 0, "John", some ⟨0, 0, 4, 10⟩⟩,
          ⟨1, 1, "5", some ⟨10, 0, 1, 10⟩⟩,
          ⟨1, 2, "", none⟩] }] }

/-- C2: on the five-fragment scenario with xTolerance = yTolerance = 2,
no column headers and default column-count bounds, the detector returns
a table of exactly 2 rows with 3 cells each, and the cell at rowIndex 1,
columnIndex 2 (the "City" column) has text `""` and bbox `null`. -/
theorem c2_grid_inference_scenario :
    extractTableFromGlyphs 0 c2glyphs c2options = some c2expected ∧
    c2expected.rows.length = 2 ∧
    (∀ r ∈ c2expected.rows, r.cells.length = 3) ∧
    ((c2expected.rows.getD 1 ⟨0, []⟩).cells.getD 2 defaultCell).columnIndex = 2 ∧
    ((c2expected.rows.getD 1 ⟨0, []⟩).cells.getD 2 defaultCell).text = "" ∧
    ((c2expected.rows.getD 1 ⟨0, []⟩).cells.getD 2 defaultCell).bbox = none :=
  ⟨by decide, by decide, by decide, by decide, by decide, by decide⟩

/-! ### Rectangularity (claim C1) -/

/-- Row list with contiguous `rowIndex`es, constant cell count `n`, and
contiguous `columnIndex`es inside every row. -/
def RowsRectangular (rows : List TableRow) (n : Nat) : Prop :=
  rows.map TableRow.rowIndex = List.range rows.length ∧
  ∀ r ∈ rows, r.cells.length = n ∧ r.cells.map TableCell.columnIndex = List.range n

/-- The grid invariant of the spec: all rows of the table have the same
cell count, `columnIndex` values are exactly `0..N-1` in positional
order, and `rowIndex` values are exactly `0..M-1` in positional order. -/
def Rectangular (t : ParsedTable) : Prop :=
  ∃ n, RowsRectangular t.rows n

theorem mapWithIdxGo_length (f : Nat → α → β) :
    ∀ (n : Nat) (l : List α), (mapWithIdxGo f n l).length = l.length := by
  intro n l
  induction l generalizing n with
  | nil => rfl
  | cons a as ih => simp [mapWithIdxGo, ih]

theorem mapWithIdx_length (f : Nat → α → β) (l : List α) :
    (mapWithIdx f l).length = l.length :=
  mapWithIdxGo_length f 0 l

theorem mapWithIdxGo_map_range' {f : Nat → α → β} {g : β → Nat} (c : Nat)
    (h : ∀ i a, g (f i a) = c + i) :
    ∀ (n : Nat) (l : List α), (mapWithIdxGo f n l).map g = List.range' (c + n) l.length := by
  intro n l
  induction l generalizing n with
  | nil => rfl
  | cons a as ih =>
    simp only [mapWithIdxGo, List.map_cons, h, List.length_cons, List.range'_succ, ih]
    rw [Nat.add_assoc]

theorem mapWithIdx_map_range {f : Nat → α → β} {g : β → Nat}
    (h : ∀ i a, g (f i a) = i) (l : List α) :
    (mapWithIdx f l).map g = List.range l.length := by
  have h0 := mapWithIdxGo_map_range' (f := f) (g := g) 0 (fun i a => by simpa using h i a) 0 l
  simpa [mapWithIdx, List.range_eq_range'] using h0

theorem mapWithIdxGo_forall_mem {f : Nat → α → β} {P : β → Prop} {l₀ : List α}
    (hl : ∀ i a, a ∈ l₀ → P (f i a)) :
    ∀ (n : Nat) (l : List α), (∀ a ∈ l, a ∈ l₀) → ∀ b ∈ mapWithIdxGo f n l, P b := by
  intro n l
  induction l generalizing n with
  | nil => intro _ b hb; simp [mapWithIdxGo] at hb
  | cons a as ih =>
    intro hsub b hb
    rcases List.mem_cons.mp hb with rfl | hb
    · exact hl n a (hsub a (List.mem_cons_self a as))
    · exact ih (n + 1) (fun x hx => hsub x (List.mem_cons_of_mem a hx)) b hb

theorem mapWithIdx_forall_mem {f : Nat → α → β} {P : β → Prop} {l : List α}
    (hl : ∀ i a, a ∈ l → P (f i a)) : ∀ b ∈ mapWithIdx f l, P b :=
  mapWithIdxGo_forall_mem hl 0 l (fun _ hx => hx)

theorem remapRows_rect (rows : List TableRow) (cols : List Nat) :
    RowsRectangular (remapRowsWithColumns rows cols) cols.length := by
  constructor
  · rw [remapRowsWithColumns, mapWithIdx_length]
    exact mapWithIdx_map_range (fun i a => rfl) rows
  · intro r hr
    rw [remapRowsWithColumns] at hr
    refine mapWithIdx_forall_mem (P := fun r => r.cells.length = cols.length ∧
      r.cells.map TableCell.columnIndex = List.range cols.length) ?_ r hr
    intro i row _
    exact ⟨mapWithIdx_length _ cols, mapWithIdx_map_range (fun _ _ => rfl) cols⟩

theorem guidedRows_rect (st : ScanState) :
    RowsRectangular (guidedRows st) st.columns.length := by
  constructor
  · rw [guidedRows, mapWithIdx_length]
    exact mapWithIdx_map_range (fun i a => rfl) st.rowsBuckets
  · intro r hr
    rw [guidedRows] at hr
    refine mapWithIdx_forall_mem (P := fun r => r.cells.length = st.columns.length ∧
      r.cells.map TableCell.columnIndex = List.range st.columns.length) ?_ r hr
    intro i rowBuckets _
    refine ⟨mapWithIdx_length _ st.columns, ?_⟩
    refine mapWithIdx_map_range (fun j a => ?_) st.columns
    dsimp only
    split
    · rfl
    · rfl

theorem extractTableWithHeaders_rect {pageIndex : Nat} {glyphs : List Glyph}
    {options : TableExtractionOptions} {t : ParsedTable}
    (h : extractTableWithHeaders pageIndex glyphs options = some t) : Rectangular t := by
  unfold extractTableWithHeaders at h
  dsimp only at h
  split at h
  · exact absurd h (by simp)
  · split at h
    · exact absurd h (by simp)
    · split at h
      · exact absurd h (by simp)
      · rename_i cellsUsed heq
        split at h
        · exact absurd h (by simp)
        · split at h
          · exact absurd h (by simp)
          · rcases Option.some.inj h with rfl
            exact ⟨_, guidedRows_rect _⟩

theorem extractTableAuto_rect {pageIndex : Nat} {glyphs : List Glyph}
    {options : TableExtractionOptions} {t : ParsedTable}
    (h : extractTableAuto pageIndex glyphs options = some t) : Rectangular t := by
  unfold extractTableAuto at h
  split at h
  · exact absurd h (by simp)
  · split at h
    · exact absurd h (by simp)
    · split at h
      · exact absurd h (by simp)
      · split at h
        · exact absurd h (by simp)
        · rcases Option.some.inj h with rfl
          exact ⟨_, remapRows_rect _ _⟩

theorem extractTableFromGlyphs_rect {pageIndex : Nat} {glyphs : List Glyph}
    {options : TableExtractionOptions} {t : ParsedTable}
    (h : extractTableFromGlyphs pageIndex glyphs options = some t) : Rectangular t := by
  unfold extractTableFromGlyphs at h
  dsimp only at h
  split at h
  · exact absurd h (by simp)
  · split at h
    · rename_i t' hg
      rcases Option.some.inj h with rfl
      split at hg
      · exact extractTableWithHeaders_rect hg
      · exact absurd hg (by simp)
    · exact extractTableAuto_rect h

theorem normalize_rect {t : ParsedTable} {n : Nat}
    (h : ∀ r ∈ t.rows, r.cells.length = n) :
    RowsRectangular (normalizeTableRows t).rows n := by
  constructor
  · show (mapWithIdx _ t.rows).map TableRow.rowIndex =
      List.range (mapWithIdx _ t.rows).length
    rw [mapWithIdx_length]
    exact mapWithIdx_map_range (fun i a => rfl) t.rows
  · intro r hr
    rw [normalizeTableRows] at hr
    refine mapWithIdx_forall_mem (P := fun r => r.cells.length = n ∧
      r.cells.map TableCell.columnIndex = List.range n) ?_ r hr
    intro i row hrow
    refine ⟨by rw [mapWithIdx_length]; exact h row hrow, ?_⟩
    have := mapWithIdx_map_range (f := fun colIdx cell =>
      ({ cell with rowIndex := i, columnIndex := colIdx } : TableCell))
      (g := TableCell.columnIndex) (fun _ _ => rfl) row.cells
    rw [this, h row hrow]

theorem rows_ne_nil_of_colCount {t : ParsedTable} (h : tableColCount t ≠ 0) :
    t.rows ≠ [] := by
  intro hnil
  apply h
  rw [tableColCount, hnil]
  rfl

theorem tableColCount_of_rect {t : ParsedTable} {n : Nat}
    (hrect : RowsRectangular t.rows n) (hne : t.rows ≠ []) : tableColCount t = n := by
  rcases List.exists_cons_of_ne_nil hne with ⟨r, rest, hcons⟩
  have hr : r ∈ t.rows := by rw [hcons]; exact List.mem_cons_self r rest
  have := (hrect.2 r hr).1
  rw [tableColCount, hcons]
  simpa using this

theorem appendRows_rect {last : ParsedTable} {rowsToAppend : List TableRow} {n : Nat}
    (hlast : RowsRectangular last.rows n)
    (happ : ∀ r ∈ rowsToAppend, r.cells.length = n) :
    RowsRectangular (appendRows last rowsToAppend).rows n := by
  have hmap : (mapWithIdx (fun idx row =>
      ({ rowIndex := last.rows.length + idx,
         cells := mapWithIdx (fun colIdx cell =>
           { cell with rowIndex := last.rows.length + idx, columnIndex := colIdx })
           row.cells } : TableRow)) rowsToAppend).map TableRow.rowIndex =
      List.range' last.rows.length rowsToAppend.length := by
    have h0 := mapWithIdxGo_map_range' (c := last.rows.length) (g := TableRow.rowIndex)
      (f := fun idx row =>
        ({ rowIndex := last.rows.length + idx,
           cells := mapWithIdx (fun colIdx cell =>
             { cell with rowIndex := last.rows.length + idx, columnIndex := colIdx })
             row.cells } : TableRow))
      (fun i a => rfl) 0 rowsToAppend
    simpa [mapWithIdx] using h0
  constructor
  · show (last.rows ++ _).map TableRow.rowIndex = List.range (last.rows ++ _).length
    rw [List.map_append, hlast.1, hmap, List.length_append, mapWithIdx_length,
      List.range_eq_range']
    have happend := List.range'_append 0 last.rows.length rowsToAppend.length 1
    simp only [Nat.one_mul, Nat.zero_add] at happend
    rw [happend, Nat.add_comm rowsToAppend.length last.rows.length]
    exact (List.range_eq_range' _).symm
  · intro r hr
    rcases List.mem_append.mp hr with hr | hr
    · exact hlast.2 r hr
    · refine mapWithIdx_forall_mem (P := fun r => r.cells.length = n ∧
        r.cells.map TableCell.columnIndex = List.range n) ?_ r hr
      intro i row hrow
      refine ⟨by rw [mapWithIdx_length]; exact happ row hrow, ?_⟩
      have := mapWithIdx_map_range (f := fun colIdx cell =>
        ({ cell with rowIndex := last.rows.length + i, columnIndex := colIdx } : TableCell))
        (g := TableCell.columnIndex) (fun _ _ => rfl) row.cells
      rw [this, happ row hrow]

theorem canMergeTables_facts {prev next : ParsedTable}
    (h : canMergeTables prev next = true) :
    tableColCount prev ≠ 0 ∧ tableColCount next ≠ 0 ∧
      tableColCount prev = tableColCount next := by
  unfold canMergeTables at h
  dsimp only at h
  split at h
  · simp at h
  · rename_i hne
    push_neg at hne
    exact ⟨hne.1, hne.2, by simpa using h⟩

theorem normalize_colCount (t : ParsedTable) :
    tableColCount (normalizeTableRows t) = tableColCount t := by
  unfold tableColCount normalizeTableRows
  cases ht : t.rows with
  | nil => simp [mapWithIdx, mapWithIdxGo]
  | cons r rest => simp [mapWithIdx, mapWithIdxGo, mapWithIdxGo_length]

theorem mergeStep_rect {merged : List ParsedTable} {table : ParsedTable}
    (hm : ∀ t ∈ merged, Rectangular t) (ht : Rectangular table) :
    ∀ t ∈ mergeStep merged table, Rectangular t := by
  rcases ht with ⟨n, hn⟩
  have hnorm : Rectangular (normalizeTableRows table) := ⟨n, normalize_rect (fun r hr => (hn.2 r hr).1)⟩
  unfold mergeStep
  cases hlast : merged.getLast? with
  | none =>
    intro t htm
    rcases List.mem_append.mp htm with htm | htm
    · exact hm t htm
    · rw [List.mem_singleton] at htm
      exact htm ▸ hnorm
  | some last =>
    by_cases hcan : canMergeTables last (normalizeTableRows table) = true
    · simp only [hcan, if_true]
      intro t htm
      rcases List.mem_append.mp htm with htm | htm
      · exact hm t (List.dropLast_subset merged htm)
      · rw [List.mem_singleton] at htm
        subst htm
        rcases hm last (List.mem_of_mem_getLast? hlast) with ⟨nl, hnl⟩
        rcases canMergeTables_facts hcan with ⟨hp0, hn0, hpn⟩
        have hlne : last.rows ≠ [] := rows_ne_nil_of_colCount hp0
        have hnne : (normalizeTableRows table).rows ≠ [] := rows_ne_nil_of_colCount hn0
        have hcl : tableColCount last = nl := tableColCount_of_rect hnl hlne
        have hnrect : RowsRectangular (normalizeTableRows table).rows n :=
          normalize_rect (fun r hr => (hn.2 r hr).1)
        have hcn : tableColCount (normalizeTableRows table) = n :=
          tableColCount_of_rect hnrect hnne
        have hnln : nl = n := by rw [← hcl, ← hcn, hpn]
        subst hnln
        refine ⟨nl, appendRows_rect hnl ?_⟩
        intro r hr
        by_cases hdrop : shouldDropRepeatedHeader last (normalizeTableRows table) = true
        · simp only [hdrop, if_true] at hr
          exact (hnrect.2 r (List.mem_of_mem_drop hr)).1
        · simp only [hdrop, if_false] at hr
          exact (hnrect.2 r hr).1
    · simp only [hcan, if_false]
      intro t htm
      rcases List.mem_append.mp htm with htm | htm
      · exact hm t htm
      · rw [List.mem_singleton] at htm
        exact htm ▸ hnorm

theorem mergeFold_rect :
    ∀ (tables acc : List ParsedTable), (∀ t ∈ acc, Rectangular t) →
      (∀ t ∈ tables, Rectangular t) →
      ∀ t ∈ tables.foldl mergeStep acc, Rectangular t := by
  intro tables
  induction tables with
  | nil => intro acc hacc _; exact hacc
  | cons a as ih =>
    intro acc hacc htab
    refine ih (mergeStep acc a) ?_ (fun t htm => htab t (List.mem_cons_of_mem a htm))
    exact mergeStep_rect hacc (htab a (List.mem_cons_self a as))

/-- C1: every table returned by `extractTableFromGlyphs` is rectangular
(rows carry `rowIndex = 0..M-1` in positional order, all rows have the
same cell count, and cells carry `columnIndex = 0..N-1` in positional
order), and `mergeSequentialTables` preserves rectangularity: when every
input table is rectangular — as the detector guarantees — so is every
table of the merged list. -/
theorem c1_grid_rectangular :
    (∀ (pageIndex : Nat) (glyphs : List Glyph) (options : TableExtractionOptions)
        (t : ParsedTable),
      extractTableFromGlyphs pageIndex glyphs options = some t → Rectangular t) ∧
    (∀ tables : List ParsedTable, (∀ t ∈ tables, Rectangular t) →
      ∀ t ∈ mergeSequentialTables tables, Rectangular t) := by
  constructor
  · intro pageIndex glyphs options t h
    exact extractTableFromGlyphs_rect h
  · intro tables htab t htm
    rw [mergeSequentialTables] at htm
    split at htm
    · simp at htm
    · exact mergeFold_rect tables [] (by simp) htab t htm

/-- Witness for C1 at the C2 scenario: the concrete extracted table is
rectangular, and merging the one-table list keeps rectangularity. -/
theorem c1_grid_rectangular_witness :
    Rectangular c2expected ∧
    ∀ t ∈ mergeSequentialTables [c2expected], Rectangular t := by
  have h1 : Rectangular c2expected :=
    c1_grid_rectangular.1 0 c2glyphs c2options c2expected (by decide)
  refine ⟨h1, c1_grid_rectangular.2 [c2expected] ?_⟩
  intro t htm
  rw [List.mem_singleton] at htm
  exact htm ▸ h1

/-! ### Claims C4 and C9: the cross-page merger -/

theorem mapWithIdxGo_map_eq {f : Nat → α → β} {g : β → γ} {g' : α → γ}
    (h : ∀ i a, g (f i a) = g' a) :
    ∀ (n : Nat) (l : List α), (mapWithIdxGo f n l).map g = l.map g' := by
  intro n l
  induction l generalizing n with
  | nil => rfl
  | cons a as ih => simp [mapWithIdxGo, h, ih]

theorem mapWithIdx_map_eq {f : Nat → α → β} {g : β → γ} {g' : α → γ}
    (h : ∀ i a, g (f i a) = g' a) (l : List α) :
    (mapWithIdx f l).map g = l.map g' :=
  mapWithIdxGo_map_eq h 0 l

theorem normalize_headerTexts (t : ParsedTable) :
    getHeaderTexts (normalizeTableRows t) = getHeaderTexts t := by
  unfold getHeaderTexts normalizeTableRows
  cases ht : t.rows with
  | nil => simp [mapWithIdx, mapWithIdxGo]
  | cons r rest =>
    simp only [mapWithIdx, mapWithIdxGo, List.head?_cons]
    have hmap : (mapWithIdxGo (fun colIdx cell =>
        ({ rowIndex := 0, columnIndex := colIdx, text := cell.text, bbox := cell.bbox } :
          TableCell)) 0 r.cells).map (fun c => jsTrim c.text) =
        r.cells.map (fun c => jsTrim c.text) := by
      refine mapWithIdxGo_map_eq ?_ 0 r.cells
      intro i a
      rfl
    exact hmap

theorem normalize_rowsLength (t : ParsedTable) :
    (normalizeTableRows t).rows.length = t.rows.length :=
  mapWithIdx_length _ t.rows

theorem mergeStep_nil (t : ParsedTable) : mergeStep [] t = [normalizeTableRows t] :=
  rfl

theorem mergeStep_single (last t : ParsedTable) :
    mergeStep [last] t =
      if canMergeTables last (normalizeTableRows t) then
        [appendRows last
          (if shouldDropRepeatedHeader last (normalizeTableRows t) then
            (normalizeTableRows t).rows.drop 1
          else (normalizeTableRows t).rows)]
      else [last, normalizeTableRows t] :=
  rfl

theorem mergeSequentialTables_pair (A B : ParsedTable) :
    mergeSequentialTables [A, B] = mergeStep [normalizeTableRows A] B := by
  unfold mergeSequentialTables
  rw [if_neg (by simp)]
  rw [List.foldl_cons, List.foldl_cons, List.foldl_nil, mergeStep_nil]

theorem headersEqual_iff (a b : List String) : headersEqual a b = true ↔ a = b := by
  unfold headersEqual
  constructor
  · intro h
    split at h
    · simp at h
    · rename_i hlen
      push_neg at hlen
      apply List.ext_getElem hlen
      intro i h1 h2
      have hiz : i < (a.zip b).length := by
        rw [List.length_zip]
        omega
      have hz : (a[i], b[i]) ∈ a.zip b := by
        have hzi : (a.zip b)[i] = (a[i], b[i]) := List.getElem_zip
        rw [← hzi]
        exact List.getElem_mem hiz
      have := List.all_eq_true.mp h _ hz
      simpa using this
  · intro h
    subst h
    rw [if_neg (by simp)]
    apply List.all_eq_true.mpr
    intro p hp
    rcases List.mem_iff_getElem.mp hp with ⟨i, hi, hpi⟩
    have hia : i < a.length := by
      rw [List.length_zip] at hi
      omega
    have hzi : (a.zip a)[i] = (a[i], a[i]) := List.getElem_zip
    rw [hzi] at hpi
    rw [← hpi]
    simp

theorem shouldDrop_iff (prev next : ParsedTable) :
    shouldDropRepeatedHeader prev next = true ↔
      ((getHeaderTexts prev).any (fun s => s ≠ "") = true ∧
       (getHeaderTexts next).any (fun s => s ≠ "") = true ∧
       getHeaderTexts prev = getHeaderTexts next) := by
  unfold shouldDropRepeatedHeader
  rw [Bool.and_eq_true, Bool.and_eq_true, headersEqual_iff]
  tauto

theorem canMergeTables_iff (prev next : ParsedTable) :
    canMergeTables prev next = true ↔
      (tableColCount prev ≠ 0 ∧ tableColCount next ≠ 0 ∧
       tableColCount prev = tableColCount next) := by
  constructor
  · exact canMergeTables_facts
  · intro h
    unfold canMergeTables
    dsimp only
    rw [if_neg (by tauto)]
    exact beq_iff_eq.mpr h.2.2

theorem appendRows_rowsLength (last : ParsedTable) (rta : List TableRow) :
    (appendRows last rta).rows.length = last.rows.length + rta.length := by
  show (last.rows ++ _).length = _
  rw [List.length_append, mapWithIdx_length]

theorem appendRows_drop_map (last : ParsedTable) (rta : List TableRow) :
    ((appendRows last rta).rows.drop last.rows.length).map TableRow.rowIndex =
      List.range' last.rows.length rta.length := by
  show ((last.rows ++ _).drop last.rows.length).map TableRow.rowIndex = _
  rw [List.drop_left]
  have h0 := mapWithIdxGo_map_range' (c := last.rows.length) (g := TableRow.rowIndex)
    (f := fun idx row =>
      ({ rowIndex := last.rows.length + idx,
         cells := mapWithIdx (fun colIdx cell =>
           { cell with rowIndex := last.rows.length + idx, columnIndex := colIdx })
           row.cells } : TableRow)) (fun i a => rfl) 0 rta
  simpa [mapWithIdx] using h0

/-- A table whose single row has one cell of blank text: its header text
list is `[""]`, so two copies have identical headers with no non-blank
entry. -/
def c4table : ParsedTable :=
  { pageIndex := 0, bbox := ⟨0, 0, 0, 0⟩,
    rows := [{ rowIndex := 0, cells := [⟨0, 0, "", none⟩] }] }

/-- Counterexample to C4 as stated: two compatible tables (equal non-zero
column count 1) with element-wise identical first-row texts merge into a
table of 1 + 1 = 2 rows, not 1 + 1 − 1 = 1, because both header texts
are blank and `shouldDropRepeatedHeader` additionally requires some
non-blank header cell before dropping. -/
theorem c4_identical_empty_headers_counterexample :
    canMergeTables (normalizeTableRows c4table) (normalizeTableRows c4table) = true ∧
    getHeaderTexts c4table = getHeaderTexts c4table ∧
    c4table.rows.length = 1 ∧
    ((mergeSequentialTables [c4table, c4table]).headD c4table).rows.length = 2 :=
  ⟨by decide, rfl, by decide, by decide⟩

/-- C4 (amended): an incoming table is appended to the running last table
iff both have the same non-zero column count; the merged row count is
`len(A) + len(B) − 1` when the two tables' first-row texts are
element-wise identical AND contain at least one non-blank entry (the
repeated header is then dropped), and `len(A) + len(B)` otherwise —
including when the headers are identical but entirely blank. -/
theorem c4_merge_condition_and_arithmetic (A B : ParsedTable) :
    ((mergeSequentialTables [A, B]).length = 1 ↔
      (tableColCount A ≠ 0 ∧ tableColCount A = tableColCount B)) ∧
    (tableColCount A ≠ 0 → tableColCount A = tableColCount B →
      ((mergeSequentialTables [A, B]).headD A).rows.length =
        if (getHeaderTexts A).any (fun s => s ≠ "") = true ∧
            getHeaderTexts A = getHeaderTexts B
        then A.rows.length + B.rows.length - 1
        else A.rows.length + B.rows.length) := by
  have hpair := mergeSequentialTables_pair A B
  have hcan : canMergeTables (normalizeTableRows A) (normalizeTableRows B) = true ↔
      (tableColCount A ≠ 0 ∧ tableColCount A = tableColCount B) := by
    rw [canMergeTables_iff, normalize_colCount, normalize_colCount]
    constructor
    · rintro ⟨h1, _, h3⟩
      exact ⟨h1, h3⟩
    · rintro ⟨h1, h2⟩
      exact ⟨h1, by rw [← h2]; exact h1, h2⟩
  constructor
  · rw [hpair, mergeStep_single]
    by_cases hc : canMergeTables (normalizeTableRows A) (normalizeTableRows B) = true
    · rw [if_pos hc]
      exact iff_of_true (by simp) (hcan.mp hc)
    · rw [if_neg hc]
      constructor
      · intro h2
        simp at h2
      · intro hr
        exact absurd (hcan.mpr hr) hc
  · intro h1 h2
    have hc : canMergeTables (normalizeTableRows A) (normalizeTableRows B) = true :=
      hcan.mpr ⟨h1, h2⟩
    rw [hpair, mergeStep_single, if_pos hc]
    simp only [List.headD_cons]
    by_cases hd : (getHeaderTexts A).any (fun s => s ≠ "") = true ∧
        getHeaderTexts A = getHeaderTexts B
    · have hdrop : shouldDropRepeatedHeader (normalizeTableRows A) (normalizeTableRows B)
          = true := by
        rw [shouldDrop_iff, normalize_headerTexts, normalize_headerTexts]
        exact ⟨hd.1, by rw [← hd.2]; exact hd.1, hd.2⟩
      rw [if_pos hd, if_pos hdrop, appendRows_rowsLength, List.length_drop,
        normalize_rowsLength, normalize_rowsLength]
      have hBany : (getHeaderTexts B).any (fun s => s ≠ "") = true := by
        rw [← hd.2]
        exact hd.1
      have hBne : 1 ≤ B.rows.length := by
        cases hB : B.rows with
        | nil =>
          unfold getHeaderTexts at hBany
          rw [hB] at hBany
          simp at hBany
        | cons r rest => simp [hB]
      omega
    · have hdrop : ¬(shouldDropRepeatedHeader (normalizeTableRows A) (normalizeTableRows B)
          = true) := by
        intro hcontra
        rw [shouldDrop_iff, normalize_headerTexts, normalize_headerTexts] at hcontra
        exact hd ⟨hcontra.1, hcontra.2.2⟩
      rw [if_neg hd, if_neg hdrop, appendRows_rowsLength,
        normalize_rowsLength, normalize_rowsLength]

/-- Witness for C4 at the concrete pair (c2expected, c2expected): equal
column count 3 and identical non-blank headers, so one merged table of
2 + 2 − 1 = 3 rows. -/
theorem c4_merge_condition_and_arithmetic_witness :
    ((mergeSequentialTables [c2expected, c2expected]).length = 1 ↔
      (tableColCount c2expected ≠ 0 ∧ tableColCount c2expected = tableColCount c2expected)) ∧
    ((mergeSequentialTables [c2expected, c2expected]).headD c2expected).rows.length =
      (if (getHeaderTexts c2expected).any (fun s => s ≠ "") = true ∧
          getHeaderTexts c2expected = getHeaderTexts c2expected
       then c2expected.rows.length + c2expected.rows.length - 1
       else c2expected.rows.length + c2expected.rows.length) :=
  ⟨(c4_merge_condition_and_arithmetic c2expected c2expected).1,
   (c4_merge_condition_and_arithmetic c2expected c2expected).2 (by decide) (by decide)⟩

/-- C9: when the merger appends an incoming table B to the running table
A, the result is a single table that keeps A's `pageIndex` and `bbox`,
and the appended rows carry `rowIndex` values continuing sequentially
from A's row count. -/
theorem c9_merge_append_frame (A B : ParsedTable)
    (h : canMergeTables (normalizeTableRows A) (normalizeTableRows B) = true) :
    ∃ m, mergeSequentialTables [A, B] = [m] ∧
      m.pageIndex = A.pageIndex ∧ m.bbox = A.bbox ∧
      (m.rows.drop A.rows.length).map TableRow.rowIndex =
        List.range' A.rows.length (m.rows.length - A.rows.length) := by
  rw [mergeSequentialTables_pair, mergeStep_single, if_pos h]
  refine ⟨_, rfl, rfl, rfl, ?_⟩
  have hlen : (appendRows (normalizeTableRows A)
      (if shouldDropRepeatedHeader (normalizeTableRows A) (normalizeTableRows B) then
        (normalizeTableRows B).rows.drop 1
      else (normalizeTableRows B).rows)).rows.length =
      A.rows.length +
        (if shouldDropRepeatedHeader (normalizeTableRows A) (normalizeTableRows B) then
          (normalizeTableRows B).rows.drop 1
        else (normalizeTableRows B).rows).length := by
    rw [appendRows_rowsLength, normalize_rowsLength]
  rw [hlen, Nat.add_sub_cancel_left]
  have hdrop := appendRows_drop_map (normalizeTableRows A)
    (if shouldDropRepeatedHeader (normalizeTableRows A) (normalizeTableRows B) then
      (normalizeTableRows B).rows.drop 1
    else (normalizeTableRows B).rows)
  rw [normalize_rowsLength] at hdrop
  exact hdrop

/-- Witness for C9 at the concrete pair (c2expected, c2expected). -/
theorem c9_merge_append_frame_witness :
    ∃ m, mergeSequentialTables [c2expected, c2expected] = [m] ∧
      m.pageIndex = c2expected.pageIndex ∧ m.bbox = c2expected.bbox ∧
      (m.rows.drop c2expected.rows.length).map TableRow.rowIndex =
        List.range' c2expected.rows.length (m.rows.length - c2expected.rows.length) :=
  c9_merge_append_frame c2expected c2expected (by decide)

/-! ### Claim C3: the header-column filter -/

/-- Modelled from the spec (the C3 claim's wording of the filter, with
the header row being just the first remaining row): drop a column empty
in every row; otherwise keep it iff its first-row cell is non-blank, or
it is column 0 with a blank first-row cell and every cell of the later
rows non-blank. -/
def keepColumnClaim (rows : List TableRow) (col : Nat) : Bool :=
  let columnCells := rows.map (fun r => r.cells.getD col defaultCell)
  let headerText := jsTrim
    (((rows.headD { rowIndex := 0, cells := [] }).cells.getD col defaultCell).text)
  let allEmpty := columnCells.all (fun c => jsTrim c.text = "")
  if allEmpty then false
  else
    headerText ≠ "" ||
      (col == 0 && headerText == "" &&
        (columnCells.drop 1).all (fun c => jsTrim c.text ≠ ""))

/-- Modelled from the spec (C3's claim): the filter over all columns of
the first row's width. -/
def selectHeaderColumnsClaim (rows : List TableRow) : List Nat :=
  if rows.length = 0 then []
  else
    (List.range (rows.headD { rowIndex := 0, cells := [] }).cells.length).filter
      (keepColumnClaim rows)

/-- The three fragments of the C3 counterexample: a first row `["A", ""]`
above a second row `["x", "y"]`, neither of which looks like data. -/
def c3glyphs : List Glyph := [⟨"A", ⟨0, 10, 4, 10⟩⟩, ⟨"x", ⟨0, 0, 4, 10⟩⟩, ⟨"y", ⟨10, 0, 4, 10⟩⟩]

/-- The table the automatic path produces on `c3glyphs`. -/
def c3expected : ParsedTable :=
  { pageIndex := 0,
    bbox := ⟨0, 0, 14, 20⟩,
    rows := [
      { rowIndex := 0, cells := [
          ⟨0, 0, "A", some ⟨0, 10, 4, 10⟩⟩,
          ⟨0, 1, "", none⟩] },
      { rowIndex := 1, cells := [
          ⟨1, 0, "x", some ⟨0, 0, 4, 10⟩⟩,
          ⟨1, 1, "y", some ⟨10, 0, 4, 10⟩⟩] }] }

/-- Counterexample to C3 as stated: on `c3glyphs` the trimmed rows form
two non-data-like rows, so `countHeaderRows` is 2 and the code's filter
keeps column 1 (its combined header over the two header rows is "y")
even though column 1's first-row cell is blank and it is not column 0 —
the claim's first-row-only filter would drop it.  The automatic path
therefore returns a table that still contains column 1. -/
theorem c3_header_filter_counterexample :
    extractTableFromGlyphs 0 c3glyphs {} = some c3expected ∧
    countHeaderRows (autoTrimmedRows c3glyphs {}) = 2 ∧
    selectHeaderColumns (autoTrimmedRows c3glyphs {})
      (countHeaderRows (autoTrimmedRows c3glyphs {})) = [0, 1] ∧
    selectHeaderColumnsClaim (autoTrimmedRows c3glyphs {}) = [0] ∧
    jsTrim (((autoTrimmedRows c3glyphs {}).headD { rowIndex := 0, cells := [] }).cells.getD 1
      defaultCell).text = "" :=
  ⟨by decide, by decide, by decide, by decide, by decide⟩

theorem keepColumn_iff (rows headerRows : List TableRow) (col : Nat) :
    keepColumn rows headerRows col = true ↔
      (¬(∀ r ∈ rows, jsTrim (r.cells.getD col defaultCell).text = "") ∧
       (combinedHeaderOf headerRows col ≠ "" ∨
        (col = 0 ∧ combinedHeaderOf headerRows col = "" ∧
         headerRows.length < rows.length ∧
         ∀ r ∈ rows.drop headerRows.length,
           jsTrim (r.cells.getD col defaultCell).text ≠ ""))) := by
  unfold keepColumn
  dsimp only
  split
  · rename_i hall
    constructor
    · intro h
      simp at h
    · rintro ⟨hne, _⟩
      exfalso
      apply hne
      intro r hr
      have := List.all_eq_true.mp hall (r.cells.getD col defaultCell)
        (List.mem_map_of_mem _ hr)
      simpa using this
  · rename_i hall
    have hnall : ¬(∀ r ∈ rows, jsTrim (r.cells.getD col defaultCell).text = "") := by
      intro hcon
      apply hall
      apply List.all_eq_true.mpr
      intro c hc
      rcases List.mem_map.mp hc with ⟨r, hr, rfl⟩
      simpa using hcon r hr
    simp only [Bool.or_eq_true, Bool.and_eq_true, decide_eq_true_eq, beq_iff_eq,
      Bool.not_eq_true', List.isEmpty_eq_false, List.all_eq_true]
    constructor
    · rintro (hch | ⟨⟨⟨hc0, hch⟩, hbne⟩, hball⟩)
      · exact ⟨hnall, Or.inl hch⟩
      · refine ⟨hnall, Or.inr ⟨hc0, hch, ?_, ?_⟩⟩
        · have hlen0 : ((rows.map (fun r => r.cells.getD col defaultCell)).drop
              headerRows.length).length ≠ 0 := by
            intro h0
            exact hbne (List.length_eq_zero.mp h0)
          rw [List.length_drop, List.length_map] at hlen0
          omega
        · intro r hr
          have hmem : r.cells.getD col defaultCell ∈
              (rows.map (fun r => r.cells.getD col defaultCell)).drop headerRows.length := by
            rw [← List.map_drop]
            exact List.mem_map_of_mem _ hr
          simpa using hball _ hmem
    · rintro ⟨_, (hch | ⟨hc0, hch, hlen, hball⟩)⟩
      · exact Or.inl hch
      · refine Or.inr ⟨⟨⟨hc0, hch⟩, ?_⟩, ?_⟩
        · intro hnil
          have hlen0 := congrArg List.length hnil
          rw [List.length_drop, List.length_map] at hlen0
          simp at hlen0
          omega
        · intro c hc
          rw [← List.map_drop] at hc
          rcases List.mem_map.mp hc with ⟨r, hr, rfl⟩
          simpa using hball r hr

/-- C3 (amended): the header-column filter uses the first
`countHeaderRows` rows (the leading non-data-like rows, clamped to at
least one) as the header block, not just the first row: a column is kept
iff it is in range, not empty in every row, and either its combined
header text over those header rows is non-blank, or it is column 0 with
a blank combined header and every cell below the header block non-blank;
and when zero columns survive the filter the automatic path returns
null. -/
theorem c3_header_filter_amended :
    (∀ (rows : List TableRow) (cnt col : Nat),
      col ∈ selectHeaderColumns rows cnt ↔
        (rows ≠ [] ∧
         col < (rows.headD { rowIndex := 0, cells := [] }).cells.length ∧
         ¬(∀ r ∈ rows, jsTrim (r.cells.getD col defaultCell).text = "") ∧
         (combinedHeaderOf (rows.take (max 1 cnt)) col ≠ "" ∨
          (col = 0 ∧ combinedHeaderOf (rows.take (max 1 cnt)) col = "" ∧
           (rows.take (max 1 cnt)).length < rows.length ∧
           ∀ r ∈ rows.drop (rows.take (max 1 cnt)).length,
             jsTrim (r.cells.getD col defaultCell).text ≠ "")))) ∧
    (∀ (pageIndex : Nat) (glyphs : List Glyph) (options : TableExtractionOptions),
      autoKeptColumns glyphs options = [] →
      extractTableAuto pageIndex glyphs options = none) := by
  constructor
  · intro rows cnt col
    unfold selectHeaderColumns
    by_cases hlen : rows.length = 0
    · rw [if_pos hlen]
      have : rows = [] := List.length_eq_zero.mp hlen
      subst this
      simp
    · rw [if_neg hlen]
      rw [List.mem_filter, List.mem_range, keepColumn_iff]
      have hne : rows ≠ [] := fun hnil => hlen (by rw [hnil]; rfl)
      constructor
      · rintro ⟨h1, h2⟩
        exact ⟨hne, h1, h2⟩
      · rintro ⟨_, h1, h2⟩
        exact ⟨h1, h2⟩
  · intro pageIndex glyphs options hkept
    unfold extractTableAuto
    by_cases h1 : (autoRowCenters glyphs options).length = 0
    · rw [if_pos h1]
    · rw [if_neg h1]
      by_cases h2 : (autoColumnCenters glyphs options).length = 0
      · rw [if_pos h2]
      · rw [if_neg h2]
        by_cases h3 : (autoTrimmedRows glyphs options).length = 0
        · rw [if_pos h3]
        · rw [if_neg h3]
          rw [if_pos (by rw [hkept]; rfl)]

/-- Witness for C3 (amended) at a whitespace-only fragment: no column
survives (the trimmed row list is empty), and the automatic path indeed
returns null. -/
theorem c3_header_filter_amended_witness :
    autoKeptColumns [(⟨" ", ⟨0, 0, 1, 1⟩⟩ : Glyph)] {} = [] ∧
    extractTableAuto 0 [(⟨" ", ⟨0, 0, 1, 1⟩⟩ : Glyph)] {} = none :=
  ⟨by decide, c3_header_filter_amended.2 0 [(⟨" ", ⟨0, 0, 1, 1⟩⟩ : Glyph)] {} (by decide)⟩

/-! ### Claim C7: row segmentation in the header-guided body scan -/

/-- Header fragment of the C7 scenario (x 0..10, y 20..30). -/
def c7H : Glyph := ⟨"H", ⟨0, 20, 10, 10⟩⟩

/-- First body fragment of the C7 scenario (x 0..10, y 10..20). -/
def c7A : Glyph := ⟨"A", ⟨0, 10, 10, 10⟩⟩

/-- Second body fragment of the C7 scenario (x 2..6, y 12..14, center
13): more than yTolerance = 3 below the row's top edge 20, but not below
`bbox.y − 3 = 7` of the row's first bucket box. -/
def c7B : Glyph := ⟨"B", ⟨2, 12, 4, 2⟩⟩

/-- The C7 scenario fragments. -/
def c7glyphs : List Glyph := [c7H, c7A, c7B]

/-- The C7 scenario options: header-guided extraction on label "H". -/
def c7options : TableExtractionOptions := { columnHeaders := some ["H"] }

/-- The table the header-guided extractor produces on the C7 scenario:
B lands in A's row (cell text "AB"), no third row is started. -/
def c7expected : ParsedTable :=
  { pageIndex := 0,
    bbox := ⟨0, 10, 10, 20⟩,
    rows := [
      { rowIndex := 0, cells := [⟨0, 0, "H", some ⟨0, 20, 10, 10⟩⟩] },
      { rowIndex := 1, cells := [⟨1, 0, "AB", some ⟨0, 10, 10, 10⟩⟩] }] }

/-- Counterexample to C7 as stated: fragment B's vertical center (13)
lies more than yTolerance (default 3) below the current row's top edge
(A's top, 20), so by the claim's rule it would start a new row, yet the
scan keeps it in A's row — the produced table has 2 rows with row 1's
cell text "AB", because the code compares against the bottom edge
(`bbox.y`) of the row's first bucket box, not the top edge. -/
theorem c7_row_segmentation_counterexample :
    extractTableFromGlyphs 0 c7glyphs c7options = some c7expected ∧
    c7expected.rows.length = 2 ∧
    ((c7expected.rows.getD 1 { rowIndex := 0, cells := [] }).cells.getD 0 defaultCell).text
      = "AB" ∧
    cyOf c7B < (c7A.bbox.y + c7A.bbox.height) - c7options.yTolerance.getD 3 :=
  ⟨by decide, by decide, by decide, by decide⟩

theorem listModify_length (f : α → α) :
    ∀ (l : List α) (i : Nat), (listModify l i f).length = l.length := by
  intro l
  induction l with
  | nil => intro i; rfl
  | cons a as ih =>
    intro i
    cases i with
    | zero => rfl
    | succ n => simp [listModify, ih]

theorem assignGlyph_rowsLength (st : ScanState) (rowIdx colIdx : Nat) (glyph : Glyph) :
    (assignGlyph st rowIdx colIdx glyph).rowsBuckets.length = st.rowsBuckets.length := by
  simp [assignGlyph, listModify_length]

/-- C7 (amended): in the body scan, for a fragment overlapping exactly
one column band and a non-empty running row list, a new row starts
exactly when the fragment's vertical center lies more than yTolerance
below the bottom edge (`bbox.y`) of the current row's first-column
bucket box (seeded from the row-starting fragment and grown by column-0
fragments) — not the row's top edge; and when that holds, scanning stops
instead iff the gap from that same bottom edge down to the fragment's
top edge exceeds the configured endOfTableWhitespace (default:
unbounded, never exceeded). -/
theorem c7_row_segmentation_amended (yTolerance : Num) (endWhitespace : Option Num)
    (st : ScanState) (glyph : Glyph)
    (hne : st.rowsBuckets ≠ [])
    (hrow : ∀ row ∈ st.rowsBuckets, row ≠ [])
    (hover : (overlapsOf st.columns glyph).length = 1) :
    (cyOf glyph <
        ((st.rowsBuckets.getLastD []).headD { glyphs := [], bbox := ⟨0, 0, 0, 0⟩ }).bbox.y
          - yTolerance →
      gapExceeds endWhitespace
        (((st.rowsBuckets.getLastD []).headD { glyphs := [], bbox := ⟨0, 0, 0, 0⟩ }).bbox.y -
          (glyph.bbox.y + glyph.bbox.height)) = true →
      scanStep yTolerance endWhitespace st glyph = .stop) ∧
    (cyOf glyph <
        ((st.rowsBuckets.getLastD []).headD { glyphs := [], bbox := ⟨0, 0, 0, 0⟩ }).bbox.y
          - yTolerance →
      gapExceeds endWhitespace
        (((st.rowsBuckets.getLastD []).headD { glyphs := [], bbox := ⟨0, 0, 0, 0⟩ }).bbox.y -
          (glyph.bbox.y + glyph.bbox.height)) = false →
      ∃ st', scanStep yTolerance endWhitespace st glyph = .cont st' ∧
        st'.rowsBuckets.length = st.rowsBuckets.length + 1) ∧
    (¬(cyOf glyph <
        ((st.rowsBuckets.getLastD []).headD { glyphs := [], bbox := ⟨0, 0, 0, 0⟩ }).bbox.y
          - yTolerance) →
      ∃ st', scanStep yTolerance endWhitespace st glyph = .cont st' ∧
        st'.rowsBuckets.length = st.rowsBuckets.length) := by
  have hlast : st.rowsBuckets.getLast? = some (st.rowsBuckets.getLastD []) := by
    cases hl : st.rowsBuckets.getLast? with
    | none => exact absurd (List.getLast?_eq_none_iff.mp hl) hne
    | some row => rw [List.getLastD_eq_getLast?, hl]; rfl
  have hlastRow : st.rowsBuckets.getLastD [] ∈ st.rowsBuckets :=
    List.mem_of_mem_getLast? hlast
  have hlne : st.rowsBuckets.getLastD [] ≠ [] := hrow _ hlastRow
  have hhead : (st.rowsBuckets.getLastD []).head? =
      some ((st.rowsBuckets.getLastD []).headD { glyphs := [], bbox := ⟨0, 0, 0, 0⟩ }) := by
    cases hl : (st.rowsBuckets.getLastD []).head? with
    | none => exact absurd (List.head?_eq_none_iff.mp hl) hlne
    | some b => rw [List.headD_eq_head?, hl]; rfl
  have hprev : ((st.rowsBuckets.getLast?).bind
      (fun row => (row.head?).map (fun b => b.bbox))) =
      some ((st.rowsBuckets.getLastD []).headD
        { glyphs := [], bbox := ⟨0, 0, 0, 0⟩ }).bbox := by
    rw [hlast, Option.some_bind, hhead]
    rfl
  have hempty : st.rowsBuckets.isEmpty = false := by
    cases hsb : st.rowsBuckets with
    | nil => exact absurd hsb hne
    | cons a as => rfl
  refine ⟨?_, ?_, ?_⟩
  · intro hcy hgap
    unfold scanStep
    dsimp only
    rw [if_neg (by omega), if_neg (by omega), hprev, hempty]
    dsimp only [Bool.false_or, Option.isSome_some, Bool.true_and]
    rw [if_pos (by rw [Bool.false_or]; exact decide_eq_true hcy),
      if_pos (by rw [Bool.true_and]; exact hgap)]
  · intro hcy hgap
    unfold scanStep
    dsimp only
    rw [if_neg (by omega), if_neg (by omega), hprev, hempty]
    dsimp only [Bool.false_or, Option.isSome_some, Bool.true_and]
    rw [if_pos (by rw [Bool.false_or]; exact decide_eq_true hcy),
      if_neg (by rw [Bool.true_and, hgap]; simp)]
    refine ⟨_, rfl, ?_⟩
    rw [assignGlyph_rowsLength]
    simp
  · intro hcy
    unfold scanStep
    dsimp only
    rw [if_neg (by omega), if_neg (by omega), hprev, hempty]
    dsimp only [Bool.false_or, Option.isSome_some, Bool.true_and]
    rw [if_neg (by rw [Bool.false_or, decide_eq_false hcy]; simp)]
    exact ⟨_, rfl, assignGlyph_rowsLength _ _ _ _⟩

/-- The scan state of the C7 witness: fragment A sits alone in the last
row, the single column band is [0, 10]. -/
def c7witnessState : ScanState :=
  { rowsBuckets := [[{ glyphs := [c7A], bbox := c7A.bbox }]],
    columns := [⟨"H", 0, 10⟩], lastRowBottom := 10 }

/-- The incoming fragment of the C7 witness (x 2..6, y 2..4, center 3,
more than 3 below the last row's bucket bottom edge 10). -/
def c7witnessGlyph : Glyph := ⟨"B", ⟨2, 2, 4, 2⟩⟩

/-- Witness for C7 (amended): the incoming fragment starts a new row. -/
theorem c7_row_segmentation_amended_witness :
    ∃ st', scanStep 3 none c7witnessState c7witnessGlyph = .cont st' ∧
      st'.rowsBuckets.length = c7witnessState.rowsBuckets.length + 1 :=
  (c7_row_segmentation_amended 3 none c7witnessState c7witnessGlyph
    (by decide) (by decide) (by decide)).2.1 (by decide) (by decide)

/-! ### C10: matched header fragments and the body scan -/

theorem unionRects_top (a b : Rect) :
    (unionRects a b).y + (unionRects a b).height
      = max (a.y + a.height) (b.y + b.height) := by
  simp only [unionRects]
  ring

theorem le_foldl_max : ∀ (l : List Num) (b : Num), b ≤ l.foldl max b
  | [], _ => le_refl _
  | x :: xs, b => le_trans (le_max_left b x) (le_foldl_max xs (max b x))

theorem mem_le_foldl_max : ∀ (l : List Num) (b a : Num), a ∈ l → a ≤ l.foldl max b
  | x :: xs, b, a, h => by
    rcases List.mem_cons.mp h with rfl | h
    · exact le_trans (le_max_right b a) (le_foldl_max xs (max b a))
    · exact mem_le_foldl_max xs (max b x) a h

theorem le_listMax {a : Num} {l : List Num} (h : a ∈ l) : a ≤ listMax l := by
  cases l with
  | nil => cases h
  | cons x xs =>
    rcases List.mem_cons.mp h with rfl | h
    · exact le_foldl_max xs a
    · exact mem_le_foldl_max xs x a h

theorem mem_insertionSort {le : α → α → Bool} {a : α} {l : List α} :
    a ∈ insertionSort le l ↔ a ∈ l :=
  (insertionSort_perm le l).mem_iff

theorem getD_mem : ∀ {l : List α} {i : Nat}, i < l.length → ∀ d : α, l.getD i d ∈ l
  | a :: _, 0, _, _ => List.mem_cons_self a _
  | _ :: _, _ + 1, h, d => List.mem_cons_of_mem _ (getD_mem (Nat.lt_of_succ_lt_succ h) d)

theorem findGlyphIdx_lt {glyphs : List Glyph} {used : List Nat} {part : String} {i : Nat}
    (h : findGlyphIdx glyphs used part = some i) : i < glyphs.length :=
  List.mem_range.mp (List.mem_of_find?_eq_some h)

theorem mem_bodyGlyphsOf {glyphs : List Glyph} {cells : List HeaderCell} {g : Glyph} :
    g ∈ bodyGlyphsOf glyphs cells ↔
      g ∈ glyphs ∧ jsTrim g.text ≠ "" ∧
        g.bbox.y + g.bbox.height ≤ headerBottomOf cells + 1 / 10 := by
  unfold bodyGlyphsOf sortBodyGlyphs nonSpace
  rw [mem_insertionSort, List.mem_filter, List.mem_filter]
  simp [and_assoc]

theorem matchParts_mono {glyphs : List Glyph} :
    ∀ (parts : List String) (used : List Nat) (r₀ : Rect) (p : List Nat × Option Rect),
      matchParts glyphs parts used (some r₀) = some p →
      ∃ r, p.2 = some r ∧ r₀.y + r₀.height ≤ r.y + r.height
  | [], used, r₀, p, h => by
    rw [matchParts] at h
    cases h
    exact ⟨r₀, rfl, le_refl _⟩
  | part :: rest, used, r₀, p, h => by
    rw [matchParts] at h
    cases hf : findGlyphIdx glyphs used part with
    | none => rw [hf] at h; cases h
    | some i =>
      rw [hf] at h
      dsimp only at h
      rcases matchParts_mono rest (used ++ [i]) _ p h with ⟨r, hr, hle⟩
      refine ⟨r, hr, le_trans ?_ hle⟩
      rw [unionRects_top]
      exact le_max_left _ _

theorem matchParts_used {glyphs : List Glyph} :
    ∀ (parts : List String) (used : List Nat) (acc : Option Rect)
      (p : List Nat × Option Rect),
      matchParts glyphs parts used acc = some p →
      ∀ i ∈ p.1, i ∈ used ∨ (i < glyphs.length ∧ ∃ r, p.2 = some r ∧
        (glyphs.getD i dummyGlyph).bbox.y + (glyphs.getD i dummyGlyph).bbox.height
          ≤ r.y + r.height)
  | [], used, acc, p, h => by
    rw [matchParts] at h
    cases h
    intro i hi
    exact Or.inl hi
  | part :: rest, used, acc, p, h => by
    rw [matchParts] at h
    cases hf : findGlyphIdx glyphs used part with
    | none => rw [hf] at h; cases h
    | some i₀ =>
      rw [hf] at h
      dsimp only at h
      intro i hi
      rcases matchParts_used rest (used ++ [i₀]) _ p h i hi with hmem | hright
      · rcases List.mem_append.mp hmem with hmem | hmem
        · exact Or.inl hmem
        · rcases List.mem_singleton.mp hmem with rfl
          refine Or.inr ⟨findGlyphIdx_lt hf, ?_⟩
          rcases matchParts_mono rest (used ++ [i]) _ p h with ⟨r, hr, hle⟩
          refine ⟨r, hr, le_trans ?_ hle⟩
          cases acc with
          | none => exact le_refl _
          | some r' => rw [unionRects_top]; exact le_max_right _ _
      · exact Or.inr hright

theorem matchHeadersAux_top {glyphs : List Glyph} :
    ∀ (headers : List String) (used0 : List Nat) (cells : List HeaderCell)
      (usedF : List Nat),
      matchHeadersAux glyphs headers used0 = some (cells, usedF) →
      ∀ i ∈ usedF, i ∈ used0 ∨ (i < glyphs.length ∧ ∃ c ∈ cells,
        (glyphs.getD i dummyGlyph).bbox.y + (glyphs.getD i dummyGlyph).bbox.height
          ≤ c.bbox.y + c.bbox.height)
  | [], used0, cells, usedF, h => by
    rw [matchHeadersAux] at h
    cases h
    intro i hi
    exact Or.inl hi
  | raw :: rest, used0, cells, usedF, h => by
    rw [matchHeadersAux] at h
    by_cases hp : (splitHeaderParts raw).isEmpty
    · rw [if_pos hp] at h
      exact matchHeadersAux_top rest used0 cells usedF h
    · rw [if_neg hp] at h
      cases hm : matchParts glyphs (splitHeaderParts raw) used0 none with
      | none => rw [hm] at h; cases h
      | some q =>
        rw [hm] at h
        obtain ⟨used', acc⟩ := q
        dsimp only at h
        cases acc with
        | none =>
          intro i hi
          rcases matchHeadersAux_top rest used' cells usedF h i hi with hmem | hright
          · rcases matchParts_used (splitHeaderParts raw) used0 none (used', none) hm i hmem
              with hmem0 | ⟨_, r, hr, _⟩
            · exact Or.inl hmem0
            · cases hr
          · exact Or.inr hright
        | some bbox =>
          cases hrec : matchHeadersAux glyphs rest used' with
          | none => rw [hrec] at h; cases h
          | some qq =>
            rw [hrec] at h
            obtain ⟨cells', usedF'⟩ := qq
            dsimp only at h
            cases h
            intro i hi
            rcases matchHeadersAux_top rest used' cells' _ hrec i hi
              with hmem | ⟨hlt, c, hc, hle⟩
            · rcases matchParts_used (splitHeaderParts raw) used0 none (used', some bbox) hm i hmem
                with hmem0 | ⟨hlt, r, hr, hle⟩
              · exact Or.inl hmem0
              · cases hr
                exact Or.inr ⟨hlt,
                  ⟨{ title := collapseWs raw, bbox := bbox }, List.mem_cons_self _ _, hle⟩⟩
            · exact Or.inr ⟨hlt, c, List.mem_cons_of_mem _ hc, hle⟩

def c10glyphA : Glyph := { text := "A", bbox := ⟨0, 20, 2, 10⟩ }

def c10glyphB : Glyph := { text := "B", bbox := ⟨10, 14, 2, 10⟩ }

def c10glyphN : Glyph := { text := "N", bbox := ⟨0, 12, 12, 18⟩ }

def c10glyphs : List Glyph := [c10glyphA, c10glyphB, c10glyphN]

def c10options : TableExtractionOptions := { columnHeaders := some ["A", "B"] }

def c10expected : ParsedTable :=
  { pageIndex := 0, bbox := ⟨0, 14, 12, 16⟩,
    rows := [{ rowIndex := 0,
               cells := [{ rowIndex := 0, columnIndex := 0, text := "A",
                           bbox := some ⟨0, 20, 2, 10⟩ },
                         { rowIndex := 0, columnIndex := 1, text := "", bbox := none }] }] }

def c10okH : Glyph := { text := "H", bbox := ⟨0, 20, 10, 10⟩ }

def c10okA : Glyph := { text := "Av", bbox := ⟨0, 10, 10, 10⟩ }

def c10okGlyphs : List Glyph := [c10okH, c10okA]

def c10okOptions : TableExtractionOptions := { columnHeaders := some ["H"] }

def c10okExpected : ParsedTable :=
  { pageIndex := 0, bbox := ⟨0, 10, 10, 20⟩,
    rows := [{ rowIndex := 0,
               cells := [{ rowIndex := 0, columnIndex := 0, text := "H",
                           bbox := some ⟨0, 20, 10, 10⟩ }] },
             { rowIndex := 1,
               cells := [{ rowIndex := 1, columnIndex := 0, text := "Av",
                           bbox := some ⟨0, 10, 10, 10⟩ }] }] }

/-- C10 (counterexample): the claim's consequence fails.  With headers
`["A", "B"]`, glyphs `A`, `B` and a wide fragment `N` overlapping both
column anchors, the header-guided extraction succeeds and the anchor
boxes are pairwise horizontally disjoint, yet the body scan hits the
multi-overlap fragment `N` before ever processing the matched `B`
fragment and stops, so no cell of the returned table carries the header
label text `"B"`. -/
theorem c10_headers_in_body_counterexample :
    extractTableFromGlyphs 0 c10glyphs c10options = some c10expected ∧
    matchHeadersAux (nonSpace c10glyphs) ["A", "B"] [] =
      some ([{ title := "A", bbox := c10glyphA.bbox },
             { title := "B", bbox := c10glyphB.bbox }], [0, 1]) ∧
    c10glyphA.bbox.x + c10glyphA.bbox.width < c10glyphB.bbox.x ∧
    (∀ row ∈ c10expected.rows, ∀ cell ∈ row.cells, cell.text ≠ "B") :=
  ⟨by decide, by decide, by decide, by decide⟩

/-- C10 (amended): matched header fragments are indeed not excluded from
the body scan, with the corrected threshold.  (1) A glyph enters the
body-scan list iff it is a non-whitespace input fragment whose top edge
`y + height` is at most `headerBottom + 0.1`, where `headerBottom` is
the maximum header-cell top edge (the source's `headerBottom` variable),
not the lowest header bottom; (2) every fragment matched to a header
label is in that list; (3) the "headers appear as leading-row contents"
consequence does hold on a scan with no early multi-overlap stop: in the
one-column `c10ok` scenario the first returned row's texts are exactly
the header label. -/
theorem c10_headers_in_body_amended (glyphs : List Glyph) (headers : List String)
    (cells : List HeaderCell) (used : List Nat) (g : Glyph)
    (hm : matchHeadersAux (nonSpace glyphs) headers [] = some (cells, used)) :
    (g ∈ bodyGlyphsOf glyphs (sortHeaderCellsByX cells) ↔
      g ∈ glyphs ∧ jsTrim g.text ≠ "" ∧
        g.bbox.y + g.bbox.height ≤ headerBottomOf (sortHeaderCellsByX cells) + 1 / 10) ∧
    (∀ i ∈ used, (nonSpace glyphs).getD i dummyGlyph ∈
      bodyGlyphsOf glyphs (sortHeaderCellsByX cells)) ∧
    extractTableFromGlyphs 0 c10okGlyphs c10okOptions = some c10okExpected ∧
    ((c10okExpected.rows.headD { rowIndex := 0, cells := [] }).cells.map
      (fun c => c.text)) = ["H"] := by
  refine ⟨mem_bodyGlyphsOf, ?_, by decide, by decide⟩
  intro i hi
  rcases matchHeadersAux_top headers [] cells used hm i hi with hmem | ⟨hlt, c, hc, hle⟩
  · cases hmem
  rw [mem_bodyGlyphsOf]
  have hg := List.mem_filter.mp
    (show (nonSpace glyphs).getD i dummyGlyph ∈
        List.filter (fun g => decide (jsTrim g.text ≠ "")) glyphs from
      getD_mem hlt dummyGlyph)
  refine ⟨hg.1, by simpa using hg.2, ?_⟩
  have hcs : c ∈ sortHeaderCellsByX cells := by
    rw [sortHeaderCellsByX, mem_insertionSort]; exact hc
  have hmax : c.bbox.y + c.bbox.height ≤ headerBottomOf (sortHeaderCellsByX cells) :=
    le_listMax (List.mem_map_of_mem _ hcs)
  have h10 : (0 : Num) ≤ 1 / 10 := by norm_num
  linarith

/-- C10 (witness): the amended theorem instantiated on the `c10ok`
scenario, with the header-matching hypothesis discharged by computation. -/
theorem c10_headers_in_body_amended_witness :
    matchHeadersAux (nonSpace c10okGlyphs) ["H"] [] =
      some ([{ title := "H", bbox := c10okH.bbox }], [0]) ∧
    (∀ i ∈ [0], (nonSpace c10okGlyphs).getD i dummyGlyph ∈
      bodyGlyphsOf c10okGlyphs (sortHeaderCellsByX [{ title := "H", bbox := c10okH.bbox }])) :=
  ⟨by decide,
   (c10_headers_in_body_amended c10okGlyphs ["H"] [{ title := "H", bbox := c10okH.bbox }]
     [0] c10okH (by decide)).2.1⟩

/-! ### C8: soft misses versus exceptions -/

/-- For `k ≥ 1` the `reclusterCenters1D` call never throws and the
checked model agrees with the total one. -/
theorem reclusterChecked_eq (values : List Num) (k : Nat) (hk : k ≠ 0) :
    reclusterCenters1DChecked values k = some (reclusterCenters1D values k) := by
  unfold reclusterCenters1DChecked
  by_cases h0 : values.length = 0
  · rw [if_pos h0]
    unfold reclusterCenters1D
    rw [if_pos h0]
  · rw [if_neg h0]
    by_cases hle : values.length ≤ k
    · rw [if_pos hle]
      unfold reclusterCenters1D
      rw [if_neg h0, if_pos hle]
    · rw [if_neg hle, if_neg hk]

/-- The model-selection loop never throws when every candidate `k` is
non-zero. -/
theorem inferColumnsSmartLoopChecked_eq (glyphs : List Glyph)
    (rowCenters candidates : List Num) :
    ∀ (ks : List Nat) (best : List Num × Option Num), (∀ k ∈ ks, k ≠ 0) →
      inferColumnsSmartLoopChecked glyphs rowCenters candidates ks best =
        some (inferColumnsSmartLoop glyphs rowCenters candidates ks best)
  | [], _, _ => rfl
  | k :: ks, best, h => by
    rw [inferColumnsSmartLoopChecked, inferColumnsSmartLoop,
      reclusterChecked_eq candidates k (h k (List.mem_cons_self _ _))]
    dsimp only
    by_cases hs : scoreLtOpt (scoreColumnModel glyphs rowCenters
        (reclusterCenters1D candidates k)) best.2 = true
    · rw [if_pos hs, if_pos hs]
      exact inferColumnsSmartLoopChecked_eq glyphs rowCenters candidates ks _
        (fun j hj => h j (List.mem_cons_of_mem _ hj))
    · rw [if_neg hs, if_neg hs]
      exact inferColumnsSmartLoopChecked_eq glyphs rowCenters candidates ks best
        (fun j hj => h j (List.mem_cons_of_mem _ hj))

/-- `inferColumnsSmart` never throws when `minCols ≥ 1`, since every
candidate `k` of the range is then at least 1. -/
theorem inferColumnsSmartChecked_eq (glyphs : List Glyph) (rowCenters : List Num)
    (xTolerance : Num) (minCols maxCols : Nat) (hmin : 1 ≤ minCols) :
    inferColumnsSmartChecked glyphs rowCenters xTolerance minCols maxCols =
      some (inferColumnsSmart glyphs rowCenters xTolerance minCols maxCols) := by
  unfold inferColumnsSmartChecked inferColumnsSmart
  by_cases h0 : glyphs.length = 0
  · rw [if_pos h0, if_pos h0]
  · rw [if_neg h0, if_neg h0]
    dsimp only
    by_cases hc : (clusterPositions (glyphs.map cxOf) xTolerance).length = 0
    · rw [if_pos hc, if_pos hc]
    · rw [if_neg hc, if_neg hc]
      by_cases hmax : min maxCols (clusterPositions (glyphs.map cxOf) xTolerance).length = 0
      · rw [if_pos hmax, if_pos hmax]
      · rw [if_neg hmax, if_neg hmax]
        by_cases heq : min minCols (min maxCols
            (clusterPositions (glyphs.map cxOf) xTolerance).length) =
            min maxCols (clusterPositions (glyphs.map cxOf) xTolerance).length
        · rw [if_pos heq, if_pos heq]
          exact reclusterChecked_eq _ _ hmax
        · rw [if_neg heq, if_neg heq,
            inferColumnsSmartLoopChecked_eq glyphs rowCenters _ _ _
              (fun j hj => by
                have hj1 := (List.mem_range'_1.mp hj).1
                omega)]
          rfl

def c8glyph : Glyph := { text := "x", bbox := ⟨0, 0, 1, 1⟩ }

def c8options : TableExtractionOptions := { minColumnCount := some 0 }

/-- C8 (counterexample): `extractTableFromGlyphs` can throw.  With the
legal option `minColumnCount = 0` and a single non-empty fragment, the
model-selection loop calls `reclusterCenters1D` with `k = 0`, which in
the JavaScript source evaluates `clusters[0].push` on `undefined` and
throws a TypeError; the exception-aware model accordingly returns
`none` (no value, not a soft miss). -/
theorem c8_soft_miss_counterexample :
    extractTableFromGlyphsChecked 0 [c8glyph] c8options = none ∧
    reclusterCenters1DChecked [1 / 2] 0 = none ∧
    c8options.minColumnCount.getD 2 = 0 :=
  ⟨by decide, by decide, by decide⟩

/-- C8 (amended): whenever the effective `minColumnCount` is at least 1
(the default is 2), `extractTableFromGlyphs` never throws — the checked
model returns the total model's value — and it returns `null` exactly in
the soft-miss cases: empty fragment list, or (the header-guided attempt
produced nothing and) no row bands, no column bands, no rows left after
trimming, or zero columns surviving the header filter. -/
theorem c8_soft_miss_amended (pageIndex : Nat) (glyphs : List Glyph)
    (options : TableExtractionOptions) (hmin : 1 ≤ options.minColumnCount.getD 2) :
    extractTableFromGlyphsChecked pageIndex glyphs options =
      some (extractTableFromGlyphs pageIndex glyphs options) ∧
    (extractTableFromGlyphs pageIndex glyphs options = none ↔
      glyphs.length = 0 ∨
        ((if (options.columnHeaders.getD []).length ≠ 0 then
            extractTableWithHeaders pageIndex glyphs options
          else none) = none ∧
         ((autoRowCenters glyphs options).length = 0 ∨
          (autoColumnCenters glyphs options).length = 0 ∨
          (autoTrimmedRows glyphs options).length = 0 ∨
          (autoKeptColumns glyphs options).length = 0))) := by
  have hauto : extractTableAutoChecked pageIndex glyphs options =
      some (extractTableAuto pageIndex glyphs options) := by
    unfold extractTableAutoChecked
    by_cases h0 : (autoRowCenters glyphs options).length = 0
    · rw [if_pos h0]
      unfold extractTableAuto
      rw [if_pos h0]
    · rw [if_neg h0, inferColumnsSmartChecked_eq _ _ _ _ _ hmin]
  have hanone : extractTableAuto pageIndex glyphs options = none ↔
      ((autoRowCenters glyphs options).length = 0 ∨
       (autoColumnCenters glyphs options).length = 0 ∨
       (autoTrimmedRows glyphs options).length = 0 ∨
       (autoKeptColumns glyphs options).length = 0) := by
    unfold extractTableAuto
    by_cases h1 : (autoRowCenters glyphs options).length = 0 <;>
      by_cases h2 : (autoColumnCenters glyphs options).length = 0 <;>
        by_cases h3 : (autoTrimmedRows glyphs options).length = 0 <;>
          by_cases h4 : (autoKeptColumns glyphs options).length = 0 <;>
            simp [h1, h2, h3, h4]
  constructor
  · unfold extractTableFromGlyphsChecked extractTableFromGlyphs
    by_cases h0 : glyphs.length = 0
    · rw [if_pos h0, if_pos h0]
    · rw [if_neg h0, if_neg h0]
      dsimp only
      cases hg : (if (options.columnHeaders.getD []).length ≠ 0 then
          extractTableWithHeaders pageIndex glyphs options else none) with
      | some t => rfl
      | none => exact hauto
  · unfold extractTableFromGlyphs
    by_cases h0 : glyphs.length = 0
    · rw [if_pos h0]
      simp [h0]
    · rw [if_neg h0]
      dsimp only
      cases hg : (if (options.columnHeaders.getD []).length ≠ 0 then
          extractTableWithHeaders pageIndex glyphs options else none) with
      | some t => simp [h0]
      | none =>
        simp only [h0, false_or]
        simpa using hanone

/-- C8 (witness): the amended theorem instantiated on the C2 scenario,
whose options leave `minColumnCount` at its default 2. -/
theorem c8_soft_miss_amended_witness :
    1 ≤ c2options.minColumnCount.getD 2 ∧
    extractTableFromGlyphsChecked 0 c2glyphs c2options =
      some (extractTableFromGlyphs 0 c2glyphs c2options) :=
  ⟨by decide, (c8_soft_miss_amended 0 c2glyphs c2options (by decide)).1⟩

end PdfTables
